import Mathlib

/-!
# uephem: reading a JPL Development Ephemeris file

A shallow embedding of `src/uephem.c` and the properties of its specification.

Conventions of the embedding:

* `double` values are exact numbers: elements of a commutative ring or field in the
  Chebyshev engine (`ℚ` when the program is run, `ℝ` for statements about
  derivatives), rationals in `main`; the value of the `double` with a given bit
  pattern is a parameter of the host (`Host.dbl`); lines 276-277 are given a second
  time with every operation rounded to binary64 (`subintervalIndexBinary64`);
* C integers are mathematical integers (`Int`), bit patterns natural numbers; the
  `int` arithmetic on values read from the header (lines 207 and 220) is reduced to
  32 bits (`wrap32`);
* a `const double*` handed to the engine is the list of the doubles stored from the
  pointer to the end of the object it points into; `*(a++)` takes the head, a read
  past the end has no defined result (`none`);
* an object in memory (`denum`, `file_time`, `nconst`, `table`, `rec_buf`) is the map
  from byte offsets to bytes, a file its content, size, position indicator and error
  indicator, together with the list of the calls made on it;
* `error(msg)` ends the run: a run yields the rows printed, the way it ended and the
  final stream (`Outcome`).
-/

namespace Uephem

set_option maxRecDepth 100000

/-! ## Chebyshev engine (`uephem.c` lines 84-117) -/

section Engine

variable {R : Type} [CommRing R]

/-- The `for (n -= 2; n; --n, n2 = n1, n1 = n0)` loop of `chebyshev`.
`x` is the doubled abscissa (`x *= 2.0`), `n` the loop counter, the list is what the
pointer `a` still has in front of it, `y` the accumulator, `n2`, `n1` the two previous
polynomial values. -/
def chebyshevLoop (x : R) : Int → List R → R → R → R → Option R
  | n, [], y, _, _ => if n = 0 then some y else none
  | n, c :: a, y, n2, n1 =>
    if n = 0 then some y
    else chebyshevLoop x (n - 1) a (y + c * (x * n1 - n2)) n1 (x * n1 - n2)

/-- Function `chebyshev(a, n, x)`, lines 85-100. -/
def chebyshev (a : List R) (n : Int) (x : R) : Option R :=
  match a with
  | a0 :: a1 :: rest => chebyshevLoop (x * 2) (n - 2) rest (a0 + a1 * x) 1 x
  | _ => none

/-- The `for (int i = 1; i < n; ++i)` loop of `chebyshev_derivative`.
The list is what is stored from `a + i` on, so `*(a + i)` is its head. -/
def chebyshevDerivativeLoop (n : Int) (x : R) : Int → List R → R → R → R → Option R
  | i, [], y, _, _ => if i < n then none else some y
  | i, c :: a, y, n2, n1 =>
    if i < n then
      chebyshevDerivativeLoop n x (i + 1) a (y + c * (i : R) * n1) n1 (2 * x * n1 - n2)
    else some y

/-- Function `chebyshev_derivative(a, n, x)`, lines 103-117. -/
def chebyshev_derivative (a : List R) (n : Int) (x : R) : Option R :=
  chebyshevDerivativeLoop n x 1 (a.drop 1) 0 0 1

/-- Chebyshev polynomials of the first kind, by their three-term recurrence:
`T_0 = 1`, `T_1 = x`, `T_k = 2x T_{k-1} - T_{k-2}`. -/
def chebT (x : R) : Nat → R
  | 0 => 1
  | 1 => x
  | k + 2 => 2 * x * chebT x (k + 1) - chebT x k

/-- Chebyshev polynomials of the second kind, by their three-term recurrence:
`U_0 = 1`, `U_1 = 2x`, `U_k = 2x U_{k-1} - U_{k-2}`. -/
def chebU (x : R) : Nat → R
  | 0 => 1
  | 1 => 2 * x
  | k + 2 => 2 * x * chebU x (k + 1) - chebU x k

/-- The Chebyshev series `Σ_{k<n} a[k] T_k(x)`. -/
def chebSum (a : List R) (n : Nat) (x : R) : R :=
  ∑ k in Finset.range n, a.getD k 0 * chebT x k

/-- The series `Σ_{1≤k<n} a[k] k U_{k-1}(x)`. -/
def chebDerivSum (a : List R) (n : Nat) (x : R) : R :=
  ∑ k in Finset.Ico 1 n, a.getD k 0 * (k : R) * chebU x (k - 1)

end Engine

/-! ## Constants (lines 30-47) -/

def DE_OFFSET_TIME : Int := 0xA5C
def DE_OFFSET_TABLE1 : Int := 0xA88
def DE_OFFSET_DENUM : Int := 0xB18
def DE_OFFSET_TABLE2 : Int := 0xB1C
def DE_MIN_ITEM_ID : Int := 0
def DE_MAX_ITEM_ID : Int := 14
def DE_MAX_NCONST : Int := 400
def DE_CNAME_LENGTH : Int := 6

/-- Macro `DE_ENDIAN_SWAP(denum)`: `denum & 0xFFFF0000`, on the 32-bit pattern. -/
def DE_ENDIAN_SWAP (denum : Nat) : Nat := denum &&& 0xFFFF0000

/-- Number of components for items 0-14. -/
def DE_NCOMP : List Int := [3, 3, 3, 3, 3, 3, 3, 3, 3, 3, 3, 2, 3, 3, 1]

/-- The error strings `err_fread`, `err_bad_arg`, `err_no_item`, `err_date`
(`err_fopen` belongs to the argument layer, which hands over an open file). -/
inductive Err where
  | fread
  | bad_arg
  | no_item
  | date
  deriving DecidableEq, Repr

/-- The text printed by `error(msg)` for each error. -/
def Err.msg : Err → String
  | .fread => "file read failed"
  | .bad_arg => "bad argument"
  | .no_item => "item not found"
  | .date => "date out of range"

/-- How a run ends: `return EXIT_SUCCESS`, `error(msg)` (which exits), or a run whose
behaviour C leaves undefined or which never returns. -/
inductive Exit where
  | success
  | error (e : Err)
  | undefined
  deriving DecidableEq, Repr

/-! ## Byte order (lines 56-69) -/

/-- Function `swap32`, on 32-bit patterns (`<<` drops the bits shifted out of 32). -/
def swap32 (x : Nat) : Nat :=
  let x := (((x <<< 8) % 2 ^ 32) &&& 0xFF00FF00) ||| ((x >>> 8) &&& 0xFF00FF)
  ((x <<< 16) % 2 ^ 32) ||| (x >>> 16)

/-- Function `swap64`, on 64-bit patterns. -/
def swap64 (x : Nat) : Nat :=
  let x := (((x <<< 8) % 2 ^ 64) &&& 0xFF00FF00FF00FF00) ||| ((x >>> 8) &&& 0x00FF00FF00FF00FF)
  let x := (((x <<< 16) % 2 ^ 64) &&& 0xFFFF0000FFFF0000) ||| ((x >>> 16) &&& 0x0000FFFF0000FFFF)
  ((x <<< 32) % 2 ^ 64) ||| (x >>> 32)

/-! ## Memory and the byte source

An object in memory is the map from byte offsets to the bytes stored there; the host
stores words least significant byte first. A `FILE` is the content and the size of
the file, the position indicator, the error indicator tested by `ferror`, and a
record of the calls made on it. -/

/-- The word stored in the `size` bytes of `mem` from offset `ptr` on. -/
def load (mem : Nat → Nat) (ptr : Nat) : Nat → Nat
  | 0 => 0
  | size + 1 => mem ptr + 256 * load mem (ptr + 1) size

/-- Byte `j` of the word `w` as stored. -/
def byteOf (w j : Nat) : Nat := w / 256 ^ j % 256

/-- Element `i` of an array of `size`-byte words. -/
def elem (size : Nat) (mem : Nat → Nat) (i : Nat) : Nat := load mem (i * size) size

/-- The value of an `int32_t` with the given 32-bit pattern. -/
def toInt32 (w : Nat) : Int := if w < 2 ^ 31 then (w : Int) else (w : Int) - 2 ^ 32

/-- The values of an `int`, 32 bits wide: `INT_MIN ≤ z ≤ INT_MAX`. -/
def fitsInt32 (z : Int) : Prop := -2 ^ 31 ≤ z ∧ z ≤ 2 ^ 31 - 1

instance (z : Int) : Decidable (fitsInt32 z) := by
  unfold fitsInt32
  infer_instance

/-- The result of an `int` operation whose exact result is `z`: the value congruent to
`z` modulo `2 ^ 32` in the range of an `int`. It is `z` itself when `z` fits; beyond
that the C standard leaves the result open, and two's complement arithmetic wraps. -/
def wrap32 (z : Int) : Int := (z + 2 ^ 31) % 2 ^ 32 - 2 ^ 31

/-- A call made on the byte source. -/
inductive IOEvent where
  | seekSet (offset : Int)
  | seekCur (offset : Int)
  | read (pos : Int) (size count : Nat)
  deriving DecidableEq, Repr

structure FILE where
  /-- Content of the file: the byte at each offset below `size`. -/
  bytes : Nat → Nat
  /-- Length of the file in bytes. -/
  size : Nat
  /-- File position indicator. -/
  pos : Int
  /-- Error indicator, what `ferror` returns. -/
  error : Bool
  /-- Offset of the first byte the device fails to deliver, if there is one. -/
  fault : Option Nat
  /-- Calls made so far, oldest first. -/
  log : List IOEvent

/-- A file as `fopen(path, "rb")` returns it. -/
def fopen (bytes : Nat → Nat) (size : Nat) (fault : Option Nat) : FILE :=
  { bytes := bytes, size := size, pos := 0, error := false, fault := fault, log := [] }

/-- Call `fseek(file, offset, SEEK_SET)`; a negative target makes the call fail and
leaves the position where it was (the program ignores the return value). -/
def fseek_set (f : FILE) (offset : Int) : FILE :=
  { f with pos := if offset < 0 then f.pos else offset,
           log := f.log ++ [IOEvent.seekSet offset] }

/-- Call `fseek(file, offset, SEEK_CUR)`. -/
def fseek_cur (f : FILE) (offset : Int) : FILE :=
  { f with pos := if f.pos + offset < 0 then f.pos else f.pos + offset,
           log := f.log ++ [IOEvent.seekCur offset] }

/-- The number of bytes between the position and the end of the file, at most `want`. -/
def available (f : FILE) (want : Nat) : Nat := min want (f.size - f.pos.toNat)

/-- The number of bytes a read of `want` bytes at the current position transfers:
those available, cut at the faulty byte if the read reaches it. -/
def transferred (f : FILE) (want : Nat) : Nat :=
  match f.fault with
  | some b => if b < f.pos.toNat + available f want then b - f.pos.toNat else available f want
  | none => available f want

/-- Call `fread(ptr, size, count, stream)`, `ptr` an offset into the object `mem`: the
bytes transferred are stored from `ptr` on, every other byte keeps its content. The
result is the object, the number of complete elements read, and the stream. A read
that stops at the end of the file sets no error indicator; one stopped by the device
does. -/
def fread (mem : Nat → Nat) (ptr size count : Nat) (f : FILE) : (Nat → Nat) × Nat × FILE :=
  let got := transferred f (size * count)
  (fun i => if ptr ≤ i ∧ i < ptr + got then f.bytes (f.pos.toNat + (i - ptr)) else mem i,
    got / size,
    { f with pos := f.pos + got, error := f.error || decide (got < available f (size * count)),
             log := f.log ++ [IOEvent.read f.pos size count] })

/-- The loops of `fread_swap`: each of the `count` elements of `size` bytes from `ptr`
on is replaced by its byte-swapped pattern; byte `i` of the object lies in element
`(i - ptr) / size`. -/
def swapElems (swap : Nat → Nat) (mem : Nat → Nat) (ptr size count : Nat) : Nat → Nat :=
  fun i =>
    if ptr ≤ i ∧ i < ptr + size * count then
      byteOf (swap (load mem (ptr + (i - ptr) / size * size) size)) ((i - ptr) % size)
    else mem i

/-- Function `fread_swap`, lines 72-82. -/
def fread_swap (mem : Nat → Nat) (ptr size count : Nat) (f : FILE) :
    (Nat → Nat) × Nat × FILE :=
  let r := fread mem ptr size count f
  if size = 8 then (swapElems swap64 r.1 ptr 8 count, r.2)
  else if size = 4 then (swapElems swap32 r.1 ptr 4 count, r.2)
  else r

/-- The function pointer `fread_ntoh`: `fread_swap` when the DE number asks for it. -/
def fread_ntoh (swap : Bool) (mem : Nat → Nat) (ptr size count : Nat) (f : FILE) :
    (Nat → Nat) × Nat × FILE :=
  if swap then fread_swap mem ptr size count f else fread mem ptr size count f

/-! ## The query (lines 133-174) -/

/-- What the program leaves to the host: the value of the `double` with a given
64-bit pattern, `LONG_MAX`, and the bytes found in objects before their first write
(the locals `denum`, `file_time`, `nconst`, `table`, and the block `malloc` returns),
by byte offset into the object. -/
structure Host where
  dbl : Nat → ℚ
  LONG_MAX : Int
  denum0 : Nat → Nat
  file_time0 : Nat → Nat
  nconst0 : Nat → Nat
  table0 : Nat → Nat
  heap : Nat → Nat

/-- The arguments after `strtol`/`strtod`: `argv[2]`, `argv[3]` and, when `argc == 6`,
`argv[4]` and `argv[5]`. -/
structure Args where
  item_id : Int
  t0 : ℚ
  range : Option (ℚ × Int)

/-- Lines 163-174, "Determine JD step size": the values of `jd_start`, `jd_step` and
`resolution` after them. -/
def schedule (jd_start jd_end : ℚ) (resolution : Int) : ℚ × ℚ × Int :=
  let jd_step := (jd_end - jd_start) / ((resolution - 1 : Int) : ℚ)
  if jd_start = jd_end then (jd_start, 0, 1)
  else if resolution = 1 then ((jd_start + jd_end) * (1 / 2), 0, resolution)
  else (jd_start, jd_step, resolution)

/-- Line 245: `jd = jd_start + jd_step * i`. -/
def sampleJD (jd_start jd_step : ℚ) (i : Int) : ℚ := jd_start + jd_step * (i : ℚ)

/-- The Julian dates the loop of line 242 visits, `i = 0, ..., resolution - 1`, for
the query `t0`, `t1`, `resolution`. -/
def sampleTimes (t0 t1 : ℚ) (resolution : Int) : List ℚ :=
  let s := schedule t0 t1 resolution
  (List.range s.2.2.toNat).map (fun i : Nat => sampleJD s.1 s.2.1 (i : Int))

/-- Lines 146-155: `jd_end`, the start time unless `argv[4]` gives it. -/
def Args.jd_end (a : Args) : ℚ :=
  match a.range with
  | some r => r.1
  | none => a.t0

/-- Lines 148-158: `resolution`, 1 unless `argv[5]` gives it. -/
def Args.resolution (a : Args) : Int :=
  match a.range with
  | some r => r.2
  | none => 1

structure Query where
  item_id : Int
  jd_start : ℚ
  jd_end : ℚ
  jd_step : ℚ
  resolution : Int

/-- Lines 133-174: the checks on the arguments and the step size. -/
def parseQuery (a : Args) : Except Err Query :=
  if a.item_id < DE_MIN_ITEM_ID ∨ a.item_id > DE_MAX_ITEM_ID then .error .no_item
  else if a.range.isSome ∧ a.resolution ≤ 0 then .error .bad_arg
  else
    let s := schedule a.t0 a.jd_end a.resolution
    .ok { item_id := a.item_id, jd_start := s.1, jd_end := a.jd_end,
          jd_step := s.2.1, resolution := s.2.2 }

/-! ## Sample evaluation (lines 275-308) -/

section Sample

variable {K : Type} [Field K]

/-- Line 281: the Julian date in the Chebyshev domain of its subinterval. -/
def remap (jd subinterval_start subinterval_duration : K) : K :=
  (jd - subinterval_start) / subinterval_duration * 2 - 1

/-- Line 294: a position component. -/
def positionAt (coeffs : List K) (item_ncoeff : Int) (t : K) : Option K :=
  chebyshev coeffs item_ncoeff t

/-- Line 305: a velocity component,
`chebyshev_derivative(coeffs, item_ncoeff, t) / subinterval_duration * 2.0`. -/
def velocityAt (coeffs : List K) (item_ncoeff : Int) (t subinterval_duration : K) :
    Option K :=
  (chebyshev_derivative coeffs item_ncoeff t).map (fun d => d / subinterval_duration * 2)

/-- The doubles in front of the pointer `rec_buf + p`; no object when `p` is negative. -/
def pointer (buf : List K) (p : Int) : Option (List K) :=
  if p < 0 then none else some (buf.drop p.toNat)

/-- The loops of lines 291-296 and 302-307: `count` components left, `coeffs` at
offset `p`, advanced by `item_ncoeff` after each. -/
def components (f : List K → Option K) (buf : List K) (item_ncoeff : Int) :
    Nat → Int → Option (List K)
  | 0, _ => some []
  | count + 1, p =>
    match pointer buf p with
    | none => none
    | some coeffs =>
      match f coeffs with
      | none => none
      | some x =>
        match components f buf item_ncoeff count (p + item_ncoeff) with
        | none => none
        | some xs => some (x :: xs)

end Sample

/-- The cast `(long)` or `(int)` of a double: the fraction is discarded. -/
def trunc (q : ℚ) : Int := if 0 ≤ q then ⌊q⌋ else ⌈q⌉

/-- One line of output: the Julian date, the position components and, for the items
below 13, the velocity components. -/
structure Row where
  jd : ℚ
  position : List ℚ
  velocity : List ℚ
  deriving DecidableEq, Repr

/-- Lines 275-310 for one time point: the row printed from the record in `rec_buf`
(as doubles), for the item with table entry `(tab0, tab1, tab2)` and component count
`item_ncomp`. -/
def sampleRow (item_id : Int) (tab0 tab1 tab2 item_ncomp : Int) (record_span : ℚ)
    (rec_buf : List ℚ) (jd : ℚ) : Option Row :=
  match rec_buf with
  | [] => none
  | rec_start :: _ =>
    let subinterval_duration := record_span / (tab2 : ℚ)
    let subinterval_index := trunc ((jd - rec_start) / subinterval_duration)
    let subinterval_start := rec_start + (subinterval_index : ℚ) * subinterval_duration
    let t := remap jd subinterval_start subinterval_duration
    let coeffs_start := (tab0 - 1) + subinterval_index * tab1 * item_ncomp
    match components (fun c => positionAt c tab1 t) rec_buf tab1 item_ncomp.toNat coeffs_start with
    | none => none
    | some xs =>
      if item_id < 13 then
        match components (fun c => velocityAt c tab1 t subinterval_duration) rec_buf tab1
            item_ncomp.toNat coeffs_start with
        | none => none
        | some dxs => some { jd := jd, position := xs, velocity := dxs }
      else some { jd := jd, position := xs, velocity := [] }

/-! ## Record locator (lines 233-273) -/

/-- The loop of lines 257-261,
`while (rec_skip >= max_rec_skip) { fseek(file, max_rec_skip_size, SEEK_CUR); rec_skip -= max_rec_skip; }`,
run for at most `fuel` tests of its condition; `none` when they do not suffice. -/
def skipLoop (max_rec_skip max_rec_skip_size : Int) : Nat → Int → FILE → Option (Int × FILE)
  | 0, _, _ => none
  | fuel + 1, rec_skip, file =>
    if rec_skip ≥ max_rec_skip then
      skipLoop max_rec_skip max_rec_skip_size fuel (rec_skip - max_rec_skip)
        (fseek_cur file max_rec_skip_size)
    else some (rec_skip, file)

/-- Lines 256-265: skip `rec_skip` records from the current position. The loop tests
its condition at most `rec_skip + 1` times when `max_rec_skip` is positive; `none`
stands for a loop that never ends. -/
def skipRecords (rec_size max_rec_skip max_rec_skip_size rec_skip : Int) (file : FILE) :
    Option FILE :=
  match skipLoop max_rec_skip max_rec_skip_size (rec_skip.toNat + 1) rec_skip file with
  | none => none
  | some (rec_skip, file) =>
    if rec_skip ≠ 0 then some (fseek_cur file (rec_size * rec_skip)) else some file

/-- The record held in memory: the stream, `rec_index[0]` and the bytes of `rec_buf`. -/
structure Resident where
  file : FILE
  rec_index : Int
  rec_buf : Nat → Nat

/-- What lines 250-273 end in. -/
inductive Located where
  | resident (r : Resident)
  | readError (file : FILE)
  | hangs

/-- Lines 250-273: bring the record `target` (`rec_index[1]`) into `rec_buf`. -/
def locate (swap : Bool) (rec_ncoeff rec_size max_rec_skip max_rec_skip_size : Int)
    (target : Int) (r : Resident) : Located :=
  if r.rec_index ≠ target then
    let rec_skip := target - r.rec_index - 1
    match skipRecords rec_size max_rec_skip max_rec_skip_size rec_skip r.file with
    | none => .hangs
    | some file =>
      let rd := fread_ntoh swap r.rec_buf 0 8 rec_ncoeff.toNat file
      if rd.2.2.error then .readError rd.2.2
      else .resident { file := rd.2.2, rec_index := target, rec_buf := rd.1 }
  else .resident r

/-! ## The program (lines 119-318) -/

/-- What a run leaves behind: the rows printed, how it ended, and the stream. -/
structure Outcome where
  rows : List Row
  exit : Exit
  file : FILE

/-- Entry `table[i][j]`. -/
def tableAt (table : Nat → Nat) (i j : Nat) : Int := toInt32 (elem 4 table (3 * i + j))

/-- Line 220: `table[i][0] + table[i][1] * table[i][2] * DE_NCOMP[i] - 1`, every
operand an `int` and so every operation an `int` operation, in the order C gives them:
the two products, the sum, the difference. The result is then widened to `long`. -/
def itemNcoeff (table : Nat → Nat) (i : Nat) : Int :=
  wrap32 (wrap32 (tableAt table i 0
    + wrap32 (wrap32 (tableAt table i 1 * tableAt table i 2) * DE_NCOMP.getD i 0)) - 1)

/-- Lines 217-223: number of coefficients per record. -/
def recNcoeff (table : Nat → Nat) : Int :=
  (List.range 15).foldl
    (fun rec_ncoeff i => if itemNcoeff table i > rec_ncoeff then itemNcoeff table i else rec_ncoeff)
    0

/-- The doubles of an array of `count` doubles stored in `buf`. -/
def doubles (dbl : Nat → ℚ) (buf : Nat → Nat) (count : Nat) : List ℚ :=
  (List.range count).map (fun i => dbl (elem 8 buf i))

/-- What the body of the loop of line 242 needs from what precedes it. -/
structure Setup where
  query : Query
  swap : Bool
  time_start : ℚ
  record_span : ℚ
  table : Nat → Nat
  rec_ncoeff : Int
  rec_size : Int
  max_rec_skip : Int
  max_rec_skip_size : Int

/-- The loop of lines 242-311, with `count` time points left, the next being `i`. -/
def sampleLoop (h : Host) (s : Setup) : Nat → Int → Resident → List Row → Outcome
  | 0, _, r, rows => { rows := rows, exit := .success, file := r.file }
  | count + 1, i, r, rows =>
    let jd := sampleJD s.query.jd_start s.query.jd_step i
    let target := trunc ((jd - s.time_start) / s.record_span)
    match locate s.swap s.rec_ncoeff s.rec_size s.max_rec_skip s.max_rec_skip_size target r with
    | .hangs => { rows := rows, exit := .undefined, file := r.file }
    | .readError file => { rows := rows, exit := .error .fread, file := file }
    | .resident r =>
      let item := s.query.item_id.toNat
      match sampleRow s.query.item_id (tableAt s.table item 0) (tableAt s.table item 1)
          (tableAt s.table item 2) (DE_NCOMP.getD item 0) s.record_span
          (doubles h.dbl r.rec_buf s.rec_ncoeff.toNat) jd with
      | none => { rows := rows, exit := .undefined, file := r.file }
      | some row => sampleLoop h s count (i + 1) r (rows ++ [row])

/-- Lines 176-186: the DE number and the choice of `fread_ntoh`. The result is the
stream and whether `fread_swap` was chosen. -/
def readDenum (h : Host) (file : FILE) : FILE × Bool :=
  let file := fseek_set file DE_OFFSET_DENUM
  let rd := fread h.denum0 0 4 1 file
  (rd.2.2, decide (DE_ENDIAN_SWAP (load rd.1 0 4) ≠ 0))

/-- Lines 188-191: the object `file_time` after the read, and the stream. -/
def readTime (h : Host) (swap : Bool) (file : FILE) : (Nat → Nat) × FILE :=
  let file := fseek_set file DE_OFFSET_TIME
  let rd := fread_ntoh swap h.file_time0 0 8 3 file
  (rd.1, rd.2.2)

/-- Lines 198-208: `nconst` and the object `table` after the reads, and the stream.
`&table[12][0]` is 144 bytes into `table`, `&table[13][0]` 156 bytes. The distance of
line 207, `(nconst - DE_MAX_NCONST) * DE_CNAME_LENGTH`, is an `int` product (the
difference is between 1 and `INT_MAX - 400` there), widened to `long` for `fseek`. -/
def readTables (h : Host) (swap : Bool) (file : FILE) : Int × (Nat → Nat) × FILE :=
  let rn := fread_ntoh swap h.nconst0 0 4 1 file
  let nconst := toInt32 (load rn.1 0 4)
  let file := fseek_set rn.2.2 DE_OFFSET_TABLE1
  let r1 := fread_ntoh swap h.table0 0 4 (12 * 3) file
  let file := fseek_set r1.2.2 DE_OFFSET_TABLE2
  let r2 := fread_ntoh swap r1.1 144 4 3 file
  let file := if nconst > DE_MAX_NCONST
    then fseek_cur r2.2.2 (wrap32 ((nconst - DE_MAX_NCONST) * DE_CNAME_LENGTH)) else r2.2.2
  let r3 := fread_ntoh swap r2.1 156 4 (2 * 3) file
  (nconst, r3.1, r3.2.2)

/-- Function `main` from line 133 on, for an open file. -/
def main (h : Host) (file : FILE) (a : Args) : Outcome :=
  match parseQuery a with
  | .error e => { rows := [], exit := .error e, file := file }
  | .ok q =>
    let dn := readDenum h file
    if dn.1.error then { rows := [], exit := .error .fread, file := dn.1 }
    else
      let swap := dn.2
      let tm := readTime h swap dn.1
      let file_time := fun i => h.dbl (elem 8 tm.1 i)
      if q.jd_start < file_time 0 ∨ q.jd_start > file_time 1 ∨
          q.jd_end < file_time 0 ∨ q.jd_end > file_time 1 then
        { rows := [], exit := .error .date, file := tm.2 }
      else
        let tb := readTables h swap tm.2
        let table := tb.2.1
        if tb.2.2.error then { rows := [], exit := .error .fread, file := tb.2.2 }
        else if tableAt table q.item_id.toNat 2 = 0 then
          { rows := [], exit := .error .no_item, file := tb.2.2 }
        else
          let rec_ncoeff := recNcoeff table
          let rec_size := rec_ncoeff * 8
          let file := fseek_set tb.2.2 (rec_size * 2)
          if rec_size = 0 then { rows := [], exit := .undefined, file := file }
          else
            let max_rec_skip := h.LONG_MAX / rec_size
            let max_rec_skip_size := rec_size * max_rec_skip
            sampleLoop h
              { query := q, swap := swap, time_start := file_time 0,
                record_span := file_time 2, table := table, rec_ncoeff := rec_ncoeff,
                rec_size := rec_size, max_rec_skip := max_rec_skip,
                max_rec_skip_size := max_rec_skip_size }
              q.resolution.toNat 0 { file := file, rec_index := -1, rec_buf := h.heap } []

/-! ## The header as the program sees it -/

/-- The value of `file_time[i]` after line 191, for a run on `file`. -/
def fileTime (h : Host) (file : FILE) (i : Nat) : ℚ :=
  h.dbl (elem 8 (readTime h (readDenum h file).2 (readDenum h file).1).1 i)

/-- The object `table` after line 208, for a run on `file`. -/
def fileTable (h : Host) (file : FILE) : Nat → Nat :=
  (readTables h (readDenum h file).2
    (readTime h (readDenum h file).2 (readDenum h file).1).2).2.1

/-- The range check of lines 194-196 on the values the run holds. -/
def dateCheckFails (h : Host) (file : FILE) (jd_start jd_end : ℚ) : Prop :=
  jd_start < fileTime h file 0 ∨ jd_start > fileTime h file 1 ∨
    jd_end < fileTime h file 0 ∨ jd_end > fileTime h file 1

instance (h : Host) (file : FILE) (jd_start jd_end : ℚ) :
    Decidable (dateCheckFails h file jd_start jd_end) := by
  unfold dateCheckFails
  infer_instance

/-- A stream on which no read has failed so far and none will. -/
def Sound (f : FILE) : Prop := f.error = false ∧ f.fault = none

instance (f : FILE) : Decidable (Sound f) := by
  unfold Sound
  infer_instance

/-- The time of the first sample, `jd_start` after line 174: `t0`, or the midpoint of
`t0` and `t1` when the resolution is 1. -/
def startSample (a : Args) : ℚ := (schedule a.t0 a.jd_end a.resolution).1

/-- The calls made on the stream up to the range check of line 194. -/
def headerCalls : List IOEvent :=
  [.seekSet DE_OFFSET_DENUM, .read DE_OFFSET_DENUM 4 1,
   .seekSet DE_OFFSET_TIME, .read DE_OFFSET_TIME 8 3]

/-! ## The locator on a sequence of records -/

/-- The reads among the calls of a log. -/
def reads : List IOEvent → List IOEvent
  | [] => []
  | .read pos size count :: log => .read pos size count :: reads log
  | _ :: log => reads log

/-- The offsets of the relative seeks among the calls of a log. -/
def seekDistances : List IOEvent → List Int
  | [] => []
  | .seekCur offset :: log => offset :: seekDistances log
  | _ :: log => seekDistances log

/-- The value of the finite IEEE 754 binary64 number with bit pattern `w`. -/
def binary64 (w : Nat) : ℚ :=
  let e : Nat := w / 2 ^ 52 % 2 ^ 11
  let m : Nat := w % 2 ^ 52
  let mag : ℚ :=
    if e = 0 then (m : ℚ) / 2 ^ 1074
    else if e < 1075 then ((2 ^ 52 + m : Nat) : ℚ) / 2 ^ (1075 - e)
    else ((2 ^ 52 + m : Nat) : ℚ) * 2 ^ (e - 1075)
  if w / 2 ^ 63 % 2 = 1 then -mag else mag

/-- An LP64 host with binary64 doubles whose fresh objects hold zero bytes. -/
def host64 : Host :=
  { dbl := binary64, LONG_MAX := 2 ^ 63 - 1, denum0 := fun _ => 0, file_time0 := fun _ => 0,
    nconst0 := fun _ => 0, table0 := fun _ => 0, heap := fun _ => 0 }

/-- The content `base` with the bytes `data` written from offset `off` on. -/
def patch (base : Nat → Nat) (off : Nat) (data : List Nat) : Nat → Nat :=
  fun i => if off ≤ i ∧ i < off + data.length then data.getD (i - off) 0 else base i

/-- The `size` bytes that store the word `w`. -/
def store (size w : Nat) : List Nat := (List.range size).map (byteOf w)

/-- A record of the example file, 360 doubles: start and end date, 349 unused
coefficients, then the nine coefficients `c` of item 0 (as bit patterns). -/
def exRecord (base : Nat → Nat) (off start stop : Nat) (c : List Nat) : Nat → Nat :=
  patch (patch base off (store 8 start ++ store 8 stop)) (off + 351 * 8)
    (c.map (store 8)).flatten

/-- The content of the example file, in host byte order, zero where nothing else is
said. Header: Julian dates 2440400.5 to 2440464.5 in records of 32 days at `0xA5C`,
`nconst = 400` at `0xA74`, the table entry `(352, 3, 1)` of item 0 at `0xA88`, the DE
number 405 at `0xB18`, every other table entry `(0, 0, 0)`; a record has 360
coefficients, 2880 bytes. Record 0 at byte 5760: dates 2440400.5 to 2440432.5,
coefficients 1, 2, 3; 4, 5, 6; 7, 8, 9. Record 1 at byte 8640: dates 2440432.5 to
2440464.5, coefficients 9, 8, 7; 6, 5, 4; 3, 2, 1. -/
def exBytes : Nat → Nat :=
  let header :=
    patch (patch (patch (fun _ => 0)
      0xA5C (store 8 0x41429e6840000000 ++ store 8 0x41429e8840000000
              ++ store 8 0x4040000000000000 ++ store 4 400))
      0xA88 (store 4 352 ++ store 4 3 ++ store 4 1))
      0xB18 (store 4 405)
  let record0 := exRecord header 5760 0x41429e6840000000 0x41429e7840000000
    [0x3ff0000000000000, 0x4000000000000000, 0x4008000000000000,
     0x4010000000000000, 0x4014000000000000, 0x4018000000000000,
     0x401c000000000000, 0x4020000000000000, 0x4022000000000000]
  exRecord record0 8640 0x41429e7840000000 0x41429e8840000000
    [0x4022000000000000, 0x4020000000000000, 0x401c000000000000,
     0x4018000000000000, 0x4014000000000000, 0x4010000000000000,
     0x4008000000000000, 0x4000000000000000, 0x3ff0000000000000]

/-- The example file, complete: the header and two records, 11520 bytes. -/
def exFile : FILE := fopen exBytes 11520 none

/-- The example file cut 16 bytes into record 1. -/
def exFileCut : FILE := fopen exBytes 8656 none

/-! ## The parts of a sample (lines 275-291) by name -/

/-- Line 276: `subinterval_duration = file_time[2] / (double)table[item_id][2]`. -/
def subintervalDuration (record_span : ℚ) (tab2 : Int) : ℚ := record_span / (tab2 : ℚ)

/-- Line 277: `subinterval_index = (int)((jd - rec_buf[0]) / subinterval_duration)`. -/
def subintervalIndex (record_span : ℚ) (tab2 : Int) (rec_start jd : ℚ) : Int :=
  trunc ((jd - rec_start) / subintervalDuration record_span tab2)

/-- Lines 280-281: the time `t` handed to the Chebyshev engine. -/
def chebyshevTime (record_span : ℚ) (tab2 : Int) (rec_start jd : ℚ) : ℚ :=
  remap jd
    (rec_start + (subintervalIndex record_span tab2 rec_start jd : ℚ)
      * subintervalDuration record_span tab2)
    (subintervalDuration record_span tab2)

/-- Lines 284 and 291: the offset into `rec_buf` of `coeffs` for component `j`,
`coeffs_start` advanced `j` times by `item_ncoeff`. -/
def coeffsOffset (tab0 tab1 item_ncomp subinterval_index j : Int) : Int :=
  (tab0 - 1) + subinterval_index * tab1 * item_ncomp + j * tab1

/-- Line 226: `rec_size = rec_ncoeff * sizeof(double)`. -/
def recSize (table : Nat → Nat) : Int := recNcoeff table * 8

/-! ## More example files -/

/-- The example file with the table entry of item 0 replaced by `(0, 0, 1)`: no item
has a coefficient. -/
def exFileFlat : FILE :=
  fopen (patch exBytes 0xA88 (store 4 0 ++ store 4 0 ++ store 4 1)) 11520 none

/-- The example file with the table entry of item 0 replaced by `(358, 1, 1)`: one
coefficient per component, the last three doubles of a record. -/
def exFileOne : FILE :=
  fopen (patch exBytes 0xA88 (store 4 358 ++ store 4 1 ++ store 4 1)) 11520 none

/-- Line 248: `rec_index[1] = (long)((jd - file_time[0]) / file_time[2])`. -/
def targetIndex (time_start record_span jd : ℚ) : Int :=
  trunc ((jd - time_start) / record_span)

/-- The 32-bit word at byte offset `off` of a file as `fread_ntoh` delivers it. -/
def word32 (swap : Bool) (bytes : Nat → Nat) (off : Nat) : Nat :=
  if swap then swap32 (load bytes off 4) else load bytes off 4

/-- The 64-bit word at byte offset `off` of a file as `fread_ntoh` delivers it. -/
def word64 (swap : Bool) (bytes : Nat → Nat) (off : Nat) : Nat :=
  if swap then swap64 (load bytes off 8) else load bytes off 8

/-- The value of `nconst` after line 201, for a run on `file`. -/
def fileNconst (h : Host) (file : FILE) : Int :=
  (readTables h (readDenum h file).2
    (readTime h (readDenum h file).2 (readDenum h file).1).2).1

/-- The stream after line 208, for a run on `file`. -/
def headerStream (h : Host) (file : FILE) : FILE :=
  (readTables h (readDenum h file).2
    (readTime h (readDenum h file).2 (readDenum h file).1).2).2.2

/-- The example file with `nconst = 402`, two constant names of six bytes at `0xB28`,
and the entry `(350, 1, 1)` for item 13 behind them, at `0xB34`. -/
def exFileNames : FILE :=
  fopen (patch (patch exBytes 0xA74 (store 4 402)) 0xB34 (store 4 350 ++ store 4 1 ++ store 4 1))
    11520 none

/-! ## The record geometry without overflow -/

/-- The count of item `i` as an integer, free of any width:
`coeff_offset + coeffs_per_component * subintervals_per_record * component_count - 1`. -/
def itemCount (table : Nat → Nat) (i : Nat) : Int :=
  tableAt table i 0 + tableAt table i 1 * tableAt table i 2 * DE_NCOMP.getD i 0 - 1

/-- No operation of line 220 overflows an `int` for item `i`: the two products, the sum
and the difference all fit. -/
def itemFits (table : Nat → Nat) (i : Nat) : Prop :=
  fitsInt32 (tableAt table i 1 * tableAt table i 2) ∧
    fitsInt32 (tableAt table i 1 * tableAt table i 2 * DE_NCOMP.getD i 0) ∧
    fitsInt32 (tableAt table i 0 + tableAt table i 1 * tableAt table i 2 * DE_NCOMP.getD i 0) ∧
    fitsInt32 (itemCount table i)

instance (table : Nat → Nat) (i : Nat) : Decidable (itemFits table i) := by
  unfold itemFits
  infer_instance

/-- The example file with the entry `(1, 65536, 65536)` for item 1: the product
`65536 * 65536` of line 220 is `2 ^ 32`. -/
def exFileWide : FILE :=
  fopen (patch exBytes 0xA94 (store 4 1 ++ store 4 65536 ++ store 4 65536)) 11520 none

/-- The example file with `nconst = 715828283`, for which `(nconst - 400) * 6` is
`2 ^ 32 + 2`, and the entry `(350, 1, 1)` at byte `0xB2A`. -/
def exFileHuge : FILE :=
  fopen (patch (patch exBytes 0xA74 (store 4 715828283)) 0xB2A
    (store 4 350 ++ store 4 1 ++ store 4 1)) 11520 none

/-! ## Lines 276-277 in binary64 arithmetic

The program computes with `double`; the definitions above take the operations exact.
Here every operation is rounded as IEEE 754 binary64 does in its normal range. -/

/-- The integer nearest to `x`, the even one of two equally near. -/
def roundEven (x : ℚ) : Int :=
  if x - ⌊x⌋ < 1 / 2 then ⌊x⌋
  else if 1 / 2 < x - ⌊x⌋ then ⌊x⌋ + 1
  else if ⌊x⌋ % 2 = 0 then ⌊x⌋ else ⌊x⌋ + 1

/-- The power of two `2 ^ k`, `k` of either sign. -/
def pow2 (k : Int) : ℚ := if 0 ≤ k then 2 ^ k.toNat else 1 / 2 ^ (-k).toNat

/-- The number of halvings that bring `n` below 2, at most `fuel` of them. -/
def halvings : Nat → Nat → Nat
  | 0, _ => 0
  | fuel + 1, n => if n < 2 then 0 else halvings fuel (n / 2) + 1

/-- The exponent `e` with `2 ^ e ≤ |x| < 2 ^ (e + 1)`, for `x ≠ 0`: the bit lengths of
numerator and denominator give it up to one. -/
def binade (x : ℚ) : Int :=
  let e : Int := (halvings x.num.natAbs x.num.natAbs : Int) - (halvings x.den x.den : Int)
  if pow2 e ≤ |x| then e else e - 1

/-- The binary64 number nearest to `x`, ties to even: `x` rounded to 53 significant
bits (exponent range not limited). -/
def roundBinary64 (x : ℚ) : ℚ :=
  if x = 0 then 0 else roundEven (x / pow2 (binade x - 52)) * pow2 (binade x - 52)

/-- Lines 276-277 with every operation rounded: the conversion of `table[item_id][2]`,
the quotient `file_time[2] / ...`, the difference `jd - rec_buf[0]` and its quotient by
`subinterval_duration`, then the conversion to `int`. -/
def subintervalIndexBinary64 (record_span : ℚ) (tab2 : Int) (rec_start jd : ℚ) : Int :=
  trunc (roundBinary64
    (roundBinary64 (jd - rec_start) / roundBinary64 (record_span / roundBinary64 (tab2 : ℚ))))

/-! ## Theorems: the Chebyshev engine -/

section EngineTheorems

variable {R : Type} [CommRing R]

theorem chebyshevLoop_eq (x : R) (rest : List R) :
    ∀ (m j : Nat) (y : R), m ≤ rest.length →
      chebyshevLoop (x * 2) (m : Int) rest y (chebT x j) (chebT x (j + 1))
        = some (y + ∑ i in Finset.range m, rest.getD i 0 * chebT x (j + 2 + i)) := by
  induction rest with
  | nil =>
    intro m j y hm
    have : m = 0 := by simpa using hm
    subst this
    simp [chebyshevLoop]
  | cons c rest ih =>
    intro m j y hm
    cases m with
    | zero => simp [chebyshevLoop]
    | succ m =>
      have hm' : m ≤ rest.length := by simpa using hm
      have hne : ((m + 1 : Nat) : Int) ≠ 0 := by omega
      have hstep : x * 2 * chebT x (j + 1) - chebT x j = chebT x (j + 2) := by
        simp only [chebT]; ring
      rw [chebyshevLoop, if_neg hne, hstep]
      have hcast : ((m + 1 : Nat) : Int) - 1 = (m : Int) := by push_cast; ring
      rw [hcast, ih m (j + 1) _ hm', Finset.sum_range_succ']
      congr 1
      simp only [List.getD_cons_succ, List.getD_cons_zero, add_zero]
      have : ∀ i, j + 1 + 2 + i = j + 2 + (i + 1) := by intro i; omega
      simp only [this]
      ring

theorem chebyshev_eq (a : List R) (n : Nat) (x : R) (h2 : 2 ≤ n)
    (hlen : n ≤ a.length) :
    chebyshev a (n : Int) x = some (chebSum a n x) := by
  match a, hlen with
  | [], hlen => simp at hlen; omega
  | [_], hlen => simp at hlen; omega
  | a0 :: a1 :: rest, hlen =>
    obtain ⟨m, rfl⟩ : ∃ m, n = m + 2 := ⟨n - 2, by omega⟩
    have hm : m ≤ rest.length := by simpa using hlen
    have hcast : ((m + 2 : Nat) : Int) - 2 = (m : Int) := by push_cast; ring
    have h := chebyshevLoop_eq x rest m 0 (a0 + a1 * x) hm
    simp only [chebT, zero_add] at h
    rw [chebyshev, hcast, h, chebSum, Finset.sum_range_succ', Finset.sum_range_succ']
    congr 1
    have e0 : chebT x 0 = 1 := rfl
    have e1 : chebT x (0 + 1) = x := rfl
    have : ∀ i, 2 + i = i + 1 + 1 := by intro i; omega
    simp only [List.getD_cons_succ, List.getD_cons_zero, this, e0, e1]
    ring


theorem chebyshevDerivativeLoop_eq (N : Nat) (x : R) (rest : List R) :
    ∀ (j : Nat) (y n2 n1 : R), n1 = chebU x j → 2 * x * n1 - n2 = chebU x (j + 1) →
      N ≤ j + 1 + rest.length →
      chebyshevDerivativeLoop (N : Int) x ((j : Int) + 1) rest y n2 n1
        = some (y + ∑ k in Finset.Ico (j + 1) N,
            rest.getD (k - (j + 1)) 0 * (k : R) * chebU x (k - 1)) := by
  induction rest with
  | nil =>
    intro j y n2 n1 _ _ hN
    have hN' : N ≤ j + 1 := by simpa using hN
    have hlt : ¬ ((j : Int) + 1 < (N : Int)) := by omega
    simp [chebyshevDerivativeLoop, hlt, Finset.Ico_eq_empty_of_le hN']
  | cons c rest ih =>
    intro j y n2 n1 h1 h0 hN
    by_cases hlt : j + 1 < N
    · have hlt' : (j : Int) + 1 < (N : Int) := by omega
      have hN' : N ≤ (j + 1) + 1 + rest.length := by simp at hN; omega
      have hU : 2 * x * (2 * x * n1 - n2) - n1 = chebU x (j + 1 + 1) := by
        rw [h0, h1]; rfl
      have hcast : (j : Int) + 1 + 1 = ((j + 1 : Nat) : Int) + 1 := by push_cast; ring
      have hi : (((j : Int) + 1 : Int) : R) = ((j + 1 : Nat) : R) := by push_cast; ring
      rw [chebyshevDerivativeLoop, if_pos hlt', hcast, ih (j + 1) _ _ _ h0 hU hN',
        Finset.sum_eq_sum_Ico_succ_bot hlt, hi]
      have hcongr : ∀ k ∈ Finset.Ico (j + 1 + 1) N,
          (c :: rest).getD (k - (j + 1)) 0 * (k : R) * chebU x (k - 1)
            = rest.getD (k - (j + 1 + 1)) 0 * (k : R) * chebU x (k - 1) := by
        intro k hk
        have hk' : j + 1 + 1 ≤ k := (Finset.mem_Ico.mp hk).1
        have : k - (j + 1) = (k - (j + 1 + 1)) + 1 := by omega
        rw [this, List.getD_cons_succ]
      rw [Finset.sum_congr rfl hcongr]
      simp only [Nat.sub_self, List.getD_cons_zero, Nat.add_sub_cancel, h1]
      congr 1
      push_cast
      ring
    · have hlt' : ¬ ((j : Int) + 1 < (N : Int)) := by omega
      have hN' : N ≤ j + 1 := by omega
      simp [chebyshevDerivativeLoop, hlt', Finset.Ico_eq_empty_of_le hN']

theorem getD_drop_one (a : List R) (k : Nat) (hk : 1 ≤ k) :
    (a.drop 1).getD (k - 1) 0 = a.getD k 0 := by
  obtain ⟨i, rfl⟩ : ∃ i, k = i + 1 := ⟨k - 1, by omega⟩
  cases a with
  | nil => simp
  | cons c a => simp

theorem chebyshev_derivative_eq (a : List R) (n : Nat) (x : R) (hlen : n ≤ a.length) :
    chebyshev_derivative a (n : Int) x = some (chebDerivSum a n x) := by
  have hN : n ≤ 0 + 1 + (a.drop 1).length := by simp; omega
  have h := chebyshevDerivativeLoop_eq n x (a.drop 1) 0 0 0 1 rfl (by simp [chebU]) hN
  simp only [Nat.cast_zero, zero_add] at h
  rw [chebyshev_derivative, h, chebDerivSum]
  congr 1
  apply Finset.sum_congr rfl
  intro k hk
  rw [getD_drop_one a k (Finset.mem_Ico.mp hk).1]

theorem eval_chebyshev_T (x : R) (k : Nat) :
    (Polynomial.Chebyshev.T R (k : Int)).eval x = chebT x k := by
  induction k using Nat.strong_induction_on with
  | _ k ih =>
    match k with
    | 0 => simp [chebT]
    | 1 => simp [chebT]
    | k + 2 =>
      have h := Polynomial.Chebyshev.T_add_two R (k : Int)
      have e : ((k + 2 : Nat) : Int) = (k : Int) + 2 := by push_cast; ring
      have e1 : ((k + 1 : Nat) : Int) = (k : Int) + 1 := by push_cast; ring
      rw [e, h, chebT, ← ih (k + 1) (by omega), ← ih k (by omega), e1]
      simp

theorem eval_chebyshev_U (x : R) (k : Nat) :
    (Polynomial.Chebyshev.U R (k : Int)).eval x = chebU x k := by
  induction k using Nat.strong_induction_on with
  | _ k ih =>
    match k with
    | 0 => simp [chebU]
    | 1 => simp [chebU]
    | k + 2 =>
      have h := Polynomial.Chebyshev.U_add_two R (k : Int)
      have e : ((k + 2 : Nat) : Int) = (k : Int) + 2 := by push_cast; ring
      have e1 : ((k + 1 : Nat) : Int) = (k : Int) + 1 := by push_cast; ring
      rw [e, h, chebU, ← ih (k + 1) (by omega), ← ih k (by omega), e1]
      simp

theorem eval_chebPoly (a : List R) (n : Nat) (x : R) :
    (∑ k in Finset.range n,
        Polynomial.C (a.getD k 0) * Polynomial.Chebyshev.T R (k : Int)).eval x
      = chebSum a n x := by
  simp [chebSum, Polynomial.eval_finset_sum, eval_chebyshev_T]

theorem eval_derivative_chebPoly (a : List R) (n : Nat) (x : R) :
    (Polynomial.derivative (∑ k in Finset.range n,
        Polynomial.C (a.getD k 0) * Polynomial.Chebyshev.T R (k : Int))).eval x
      = chebDerivSum a n x := by
  rw [chebDerivSum, Polynomial.derivative_sum, Polynomial.eval_finset_sum]
  have hterm : ∀ k : Nat,
      (Polynomial.derivative
          (Polynomial.C (a.getD k 0) * Polynomial.Chebyshev.T R (k : Int))).eval x
        = a.getD k 0 * (k : R) * chebU x (k - 1) := by
    intro k
    rw [Polynomial.derivative_C_mul, Polynomial.Chebyshev.T_derivative_eq_U]
    cases k with
    | zero => simp
    | succ k =>
      have e : ((k + 1 : Nat) : Int) - 1 = (k : Int) := by push_cast; ring
      rw [e]
      simp [eval_chebyshev_U, mul_assoc]
  simp only [hterm]
  cases n with
  | zero => simp
  | succ n =>
    rw [Finset.range_eq_Ico, Finset.sum_eq_sum_Ico_succ_bot (Nat.succ_pos n)]
    simp

/-- C1: for every `n ≥ 2`, every coefficient array `a` holding at least `n` doubles (in
particular one of length `n`) and every `x`, `chebyshev(a, n, x)` returns
`Σ_{k<n} a[k] T_k(x)`, where `T_0 = 1`, `T_1 = x`, `T_k = 2x T_{k-1} - T_{k-2}`. -/
theorem chebyshev_returns_series (a : List R) (n : Nat) (x : R) (h2 : 2 ≤ n)
    (hlen : n ≤ a.length) :
    chebyshev a (n : Int) x = some (∑ k in Finset.range n, a.getD k 0 * chebT x k) :=
  chebyshev_eq a n x h2 hlen

theorem chebyshev_returns_series_witness :
    chebyshev ([1, 2, 3] : List ℚ) ((3 : Nat) : Int) 2
      = some (∑ k in Finset.range 3, ([1, 2, 3] : List ℚ).getD k 0 * chebT 2 k) :=
  chebyshev_returns_series [1, 2, 3] 3 2 (by decide) (by decide)

/-- C2: for every `n ≥ 0`, every array `a` holding at least `n` doubles and every `x`,
`chebyshev_derivative(a, n, x)` returns `Σ_{k=1}^{n-1} a[k] k U_{k-1}(x)`, where
`U_0 = 1`, `U_1 = 2x`, `U_k = 2x U_{k-1} - U_{k-2}`; this is the value at `x` of the
derivative of the polynomial `Σ_{k<n} a[k] T_k`, and it is `0` when `n ≤ 1`. -/
theorem chebyshev_derivative_returns_series (a : List R) (n : Nat) (x : R)
    (hlen : n ≤ a.length) :
    chebyshev_derivative a (n : Int) x
        = some (∑ k in Finset.Ico 1 n, a.getD k 0 * (k : R) * chebU x (k - 1)) ∧
      (∑ k in Finset.Ico 1 n, a.getD k 0 * (k : R) * chebU x (k - 1))
        = (Polynomial.derivative (∑ k in Finset.range n,
            Polynomial.C (a.getD k 0) * Polynomial.Chebyshev.T R (k : Int))).eval x ∧
      (∀ z, (∑ k in Finset.range n,
            Polynomial.C (a.getD k 0) * Polynomial.Chebyshev.T R (k : Int)).eval z
          = ∑ k in Finset.range n, a.getD k 0 * chebT z k) ∧
      (n ≤ 1 → chebyshev_derivative a (n : Int) x = some 0) := by
  refine ⟨chebyshev_derivative_eq a n x hlen, (eval_derivative_chebPoly a n x).symm,
    fun z => eval_chebPoly a n z, fun h1 => ?_⟩
  rw [chebyshev_derivative_eq a n x hlen, chebDerivSum,
    Finset.Ico_eq_empty_of_le h1, Finset.sum_empty]

theorem chebyshev_derivative_returns_series_witness :
    chebyshev_derivative ([1, 2, 3] : List ℚ) ((3 : Nat) : Int) 2
      = some (∑ k in Finset.Ico 1 3, ([1, 2, 3] : List ℚ).getD k 0 * (k : ℚ) * chebU 2 (k - 1)) :=
  (chebyshev_derivative_returns_series [1, 2, 3] 3 2 (by decide)).1

end EngineTheorems

/-! ## Theorems: velocity -/

theorem hasDerivAt_remap (s d jd : ℝ) : HasDerivAt (fun u : ℝ => remap u s d) (2 / d) jd := by
  have h := ((((hasDerivAt_id jd).sub_const s).div_const d).mul_const 2).sub_const 1
  have e : (1 : ℝ) / d * 2 = 2 / d := by ring
  rw [e] at h
  exact h

theorem hasDerivAt_chebSum (c : List ℝ) (n : Nat) (t : ℝ) :
    HasDerivAt (fun z : ℝ => chebSum c n z) (chebDerivSum c n t) t := by
  have h := (∑ k in Finset.range n,
    Polynomial.C (c.getD k 0) * Polynomial.Chebyshev.T ℝ (k : Int)).hasDerivAt t
  rw [eval_derivative_chebPoly] at h
  have e : (fun z : ℝ => chebSum c n z) = fun z => (∑ k in Finset.range n,
      Polynomial.C (c.getD k 0) * Polynomial.Chebyshev.T ℝ (k : Int)).eval z := by
    funext z
    exact (eval_chebPoly c n z).symm
  rw [e]
  exact h

theorem hasDerivAt_position (c : List ℝ) (n : Nat) (s d jd : ℝ) :
    HasDerivAt (fun u : ℝ => chebSum c n (remap u s d))
      (chebDerivSum c n (remap jd s d) / d * 2) jd := by
  have h := (hasDerivAt_chebSum c n (remap jd s d)).comp jd (hasDerivAt_remap s d jd)
  have e : chebDerivSum c n (remap jd s d) * (2 / d)
      = chebDerivSum c n (remap jd s d) / d * 2 := by ring
  rw [e] at h
  exact h

theorem tendsto_central_difference (f : ℝ → ℝ) (v x : ℝ) (hf : HasDerivAt f v x) :
    Filter.Tendsto (fun h : ℝ => (f (x + h) - f (x - h)) / (2 * h))
      (nhdsWithin 0 {0}ᶜ) (nhds v) := by
  have h1 := hasDerivAt_iff_tendsto_slope_zero.mp hf
  have hneg : Filter.Tendsto (fun h : ℝ => -h) (nhdsWithin 0 {0}ᶜ)
      (nhdsWithin 0 {0}ᶜ) := by
    apply tendsto_nhdsWithin_of_tendsto_nhds_of_eventually_within
    · have : Filter.Tendsto (fun h : ℝ => -h) (nhds 0) (nhds (-0)) :=
        (continuous_neg.tendsto 0)
      rw [neg_zero] at this
      exact this.mono_left nhdsWithin_le_nhds
    · filter_upwards [self_mem_nhdsWithin] with h hh
      intro h0
      apply hh
      simpa using h0
  have h2 := h1.comp hneg
  have h3 := (h1.add h2).const_mul (1 / 2 : ℝ)
  have e : (1 / 2 : ℝ) * (v + v) = v := by ring
  rw [e] at h3
  refine h3.congr' ?_
  filter_upwards [self_mem_nhdsWithin] with h hh
  have h0 : h ≠ 0 := by
    intro h0
    apply hh
    simpa using h0
  have hx : x + -h = x - h := by ring
  simp only [Function.comp, smul_eq_mul, hx, inv_neg]
  field_simp

/-- C3: for an item with id below 13 (those for which line 298 emits velocities),
`n = coeffs_per_component ≥ 2`, a subinterval of duration `d ≠ 0` starting at `s`: the
position `chebyshev(c, n, t)` and the velocity `chebyshev_derivative(c, n, t) / d * 2`,
`t = (jd - s) / d * 2 - 1`, are both produced, and the velocity is the derivative with
respect to `jd` of the position, hence the limit of its central finite difference. -/
theorem velocity_is_derivative_of_position (item_id : Int) (c : List ℝ) (n : Nat)
    (s d jd : ℝ) (_hid : item_id < 13) (h2 : 2 ≤ n) (hlen : n ≤ c.length) (_hd : d ≠ 0) :
    ∃ (p : ℝ → ℝ) (v : ℝ),
      (∀ u, positionAt c (n : Int) (remap u s d) = some (p u)) ∧
      velocityAt c (n : Int) (remap jd s d) d = some v ∧
      v = (∑ k in Finset.Ico 1 n, c.getD k 0 * (k : ℝ) * chebU (remap jd s d) (k - 1)) * 2 / d ∧
      HasDerivAt p v jd ∧
      Filter.Tendsto (fun h : ℝ => (p (jd + h) - p (jd - h)) / (2 * h))
        (nhdsWithin 0 {0}ᶜ) (nhds v) := by
  have hp : ∀ u, positionAt c (n : Int) (remap u s d) = some (chebSum c n (remap u s d)) :=
    fun u => chebyshev_eq c n _ h2 hlen
  have hv : velocityAt c (n : Int) (remap jd s d) d
      = some (chebDerivSum c n (remap jd s d) / d * 2) := by
    rw [velocityAt, chebyshev_derivative_eq c n _ hlen]
    rfl
  have hsum : chebDerivSum c n (remap jd s d) / d * 2
      = (∑ k in Finset.Ico 1 n, c.getD k 0 * (k : ℝ) * chebU (remap jd s d) (k - 1)) * 2 / d := by
    rw [chebDerivSum]
    ring
  have hd := hasDerivAt_position c n s d jd
  have hc := tendsto_central_difference (fun u => chebSum c n (remap u s d))
    (chebDerivSum c n (remap jd s d) / d * 2) jd hd
  exact ⟨fun u => chebSum c n (remap u s d), chebDerivSum c n (remap jd s d) / d * 2,
    hp, hv, hsum, hd, hc⟩

theorem velocity_is_derivative_of_position_witness :
    ∃ (p : ℝ → ℝ) (v : ℝ),
      (∀ u, positionAt ([1, 2, 3] : List ℝ) ((3 : Nat) : Int) (remap u 10 32) = some (p u)) ∧
      velocityAt ([1, 2, 3] : List ℝ) ((3 : Nat) : Int) (remap 20 10 32) 32 = some v ∧
      v = (∑ k in Finset.Ico 1 3,
        ([1, 2, 3] : List ℝ).getD k 0 * (k : ℝ) * chebU (remap 20 10 32) (k - 1)) * 2 / 32 ∧
      HasDerivAt p v 20 ∧
      Filter.Tendsto (fun h : ℝ => (p (20 + h) - p (20 - h)) / (2 * h))
        (nhdsWithin 0 {0}ᶜ) (nhds v) :=
  velocity_is_derivative_of_position 0 ([1, 2, 3] : List ℝ) 3 10 32 20 (by decide)
    (by decide) (Nat.le_refl 3) (by norm_num)

/-! ## Theorems: the rows of a run -/

theorem sampleRow_jd (item_id tab0 tab1 tab2 item_ncomp : Int) (record_span : ℚ)
    (rec_buf : List ℚ) (jd : ℚ) (row : Row)
    (h : sampleRow item_id tab0 tab1 tab2 item_ncomp record_span rec_buf jd = some row) :
    row.jd = jd := by
  unfold sampleRow at h
  cases rec_buf with
  | nil => simp at h
  | cons rec_start rest =>
    simp only at h
    split at h
    · simp at h
    · split at h
      · split at h
        · simp at h
        · simp only [Option.some.injEq] at h
          rw [← h]
      · simp only [Option.some.injEq] at h
        rw [← h]

/-- The Julian dates of the rows a run of the loop adds are those of the time points
`i`, `i + 1`, ... in order; all `count` of them when the loop runs to its end. -/
theorem sampleLoop_rows (h : Host) (s : Setup) :
    ∀ (count : Nat) (i : Int) (r : Resident) (rows : List Row),
      ∃ k : Nat, k ≤ count ∧
        (sampleLoop h s count i r rows).rows.map Row.jd
          = rows.map Row.jd ++ (List.range k).map
              (fun j : Nat => sampleJD s.query.jd_start s.query.jd_step (i + (j : Int))) ∧
        ((sampleLoop h s count i r rows).exit = .success → k = count) := by
  intro count
  induction count with
  | zero =>
    intro i r rows
    exact ⟨0, le_refl 0, by simp [sampleLoop], fun _ => rfl⟩
  | succ count ih =>
    intro i r rows
    rw [sampleLoop]
    simp only
    split
    · exact ⟨0, Nat.zero_le _, by simp, fun hx => by simp at hx⟩
    · exact ⟨0, Nat.zero_le _, by simp, fun hx => by simp at hx⟩
    · rename_i r' _
      split
      · exact ⟨0, Nat.zero_le _, by simp, fun hx => by simp at hx⟩
      · rename_i row hrow
        obtain ⟨k, hk, hrows, hexit⟩ := ih (i + 1) r' (rows ++ [row])
        refine ⟨k + 1, Nat.succ_le_succ hk, ?_, fun hx => by rw [hexit hx]⟩
        rw [hrows, List.map_append, List.range_succ_eq_map, List.append_assoc]
        congr 1
        simp only [List.map_cons, List.map_nil, List.singleton_append, List.map_map,
          sampleRow_jd _ _ _ _ _ _ _ _ _ hrow]
        congr 1
        · simp
        · apply List.map_congr_left
          intro j _
          simp only [Function.comp]
          congr 1
          push_cast
          ring

theorem parseQuery_ok (a : Args) (q : Query) (hq : parseQuery a = .ok q) :
    (DE_MIN_ITEM_ID ≤ a.item_id ∧ a.item_id ≤ DE_MAX_ITEM_ID) ∧
      q.item_id = a.item_id ∧ q.jd_end = a.jd_end ∧
      (q.jd_start, q.jd_step, q.resolution) = schedule a.t0 a.jd_end a.resolution := by
  unfold parseQuery at hq
  split at hq
  · simp at hq
  · rename_i hid
    split at hq
    · simp at hq
    · simp only [Except.ok.injEq] at hq
      subst hq
      exact ⟨by omega, rfl, rfl, rfl⟩

/-- The Julian dates of the rows printed by a run are the first of the sample times of
the query, in order, and all of them when the run ends in `EXIT_SUCCESS`. -/
theorem main_rows (h : Host) (file : FILE) (a : Args) :
    (main h file a).rows.map Row.jd <+: sampleTimes a.t0 a.jd_end a.resolution ∧
      ((main h file a).exit = .success →
        (main h file a).rows.map Row.jd = sampleTimes a.t0 a.jd_end a.resolution) := by
  unfold main
  split
  · exact ⟨by simp, fun hx => by simp at hx⟩
  · rename_i q hq
    obtain ⟨_, _, _, hs⟩ := parseQuery_ok a q hq
    simp only
    split
    · exact ⟨by simp, fun hx => by simp at hx⟩
    · split
      · exact ⟨by simp, fun hx => by simp at hx⟩
      · split
        · exact ⟨by simp, fun hx => by simp at hx⟩
        · split
          · exact ⟨by simp, fun hx => by simp at hx⟩
          · split
            · exact ⟨by simp, fun hx => by simp at hx⟩
            · generalize hS : Setup.mk q _ _ _ _ _ _ _ _ = S
              generalize hR : Resident.mk _ _ _ = R
              obtain ⟨k, hk, hrows, hexit⟩ := sampleLoop_rows h S q.resolution.toNat 0 R []
              have hq' : S.query = q := by rw [← hS]
              have hst : sampleTimes a.t0 a.jd_end a.resolution
                  = (List.range q.resolution.toNat).map
                      (fun j : Nat => sampleJD q.jd_start q.jd_step (0 + (j : Int))) := by
                simp only [sampleTimes, ← hs, zero_add]
              rw [hrows, hst, hq']
              simp only [List.map_nil, List.nil_append]
              refine ⟨?_, fun hx => by rw [hexit hx]⟩
              obtain ⟨m, hm⟩ := Nat.exists_eq_add_of_le hk
              rw [hm, List.range_add, List.map_append]
              exact List.prefix_append _ _

/-! ## Theorems: sample times -/

theorem schedule_of_ne (t0 t1 : ℚ) (r : Int) (hne : t0 ≠ t1) (hr : r ≠ 1) :
    schedule t0 t1 r = (t0, (t1 - t0) / ((r - 1 : Int) : ℚ), r) := by
  simp [schedule, hne, hr]

theorem schedule_of_collapse (t0 t1 : ℚ) (r : Int) (h : r = 1 ∨ t0 = t1) :
    schedule t0 t1 r = ((t0 + t1) / 2, 0, 1) := by
  by_cases he : t0 = t1
  · subst he
    have : (t0 + t0) / 2 = t0 := by ring
    simp [schedule, this]
  · have hr : r = 1 := h.resolve_right he
    subst hr
    have : (t0 + t1) * 2⁻¹ = (t0 + t1) / 2 := by ring
    simp [schedule, he, this]

theorem sampleTimes_of_ne (t0 t1 : ℚ) (r : Int) (hne : t0 ≠ t1) (hr : r ≠ 1) :
    sampleTimes t0 t1 r
      = (List.range r.toNat).map (fun i : Nat => t0 + (t1 - t0) / ((r : ℚ) - 1) * (i : ℚ)) := by
  simp [sampleTimes, schedule_of_ne t0 t1 r hne hr, sampleJD]

/-- C4: for a query with `t0 ≠ t1` and resolution `r ≥ 2`, the loop visits exactly `r`
sample times, the `i`-th (`0 ≤ i < r`) being `t0 + i (t1 - t0) / (r - 1)`: consecutive
samples are `(t1 - t0) / (r - 1)` apart, the first is `t0` and the last is `t1`. The
rows a run prints carry these dates in order, all `r` of them when it succeeds. -/
theorem sampleTimes_evenly_spaced (t0 t1 : ℚ) (r : Int) (hne : t0 ≠ t1) (hr : 2 ≤ r) :
    (sampleTimes t0 t1 r).length = r.toNat ∧
      (∀ i : Nat, (i : Int) < r →
        (sampleTimes t0 t1 r)[i]? = some (t0 + (i : ℚ) * (t1 - t0) / ((r : ℚ) - 1))) ∧
      (∀ i : Nat, (i : Int) + 1 < r →
        (sampleTimes t0 t1 r).getD (i + 1) 0 - (sampleTimes t0 t1 r).getD i 0
          = (t1 - t0) / ((r : ℚ) - 1)) ∧
      (sampleTimes t0 t1 r)[0]? = some t0 ∧
      (sampleTimes t0 t1 r)[r.toNat - 1]? = some t1 ∧
      (∀ (h : Host) (file : FILE) (item_id : Int),
        (main h file ⟨item_id, t0, some (t1, r)⟩).rows.map Row.jd <+: sampleTimes t0 t1 r ∧
        ((main h file ⟨item_id, t0, some (t1, r)⟩).exit = .success →
          (main h file ⟨item_id, t0, some (t1, r)⟩).rows.map Row.jd = sampleTimes t0 t1 r)) := by
  have hr1 : r ≠ 1 := by omega
  have hrq : ((r : ℚ) - 1) ≠ 0 := by
    have : (1 : ℚ) < (r : ℚ) := by exact_mod_cast (by omega : (1 : Int) < r)
    linarith
  have hget : ∀ i : Nat, (i : Int) < r →
      (sampleTimes t0 t1 r)[i]? = some (t0 + (i : ℚ) * (t1 - t0) / ((r : ℚ) - 1)) := by
    intro i hi
    have hi' : i < r.toNat := by omega
    rw [sampleTimes_of_ne t0 t1 r hne hr1, List.getElem?_map, List.getElem?_range hi']
    simp only [Option.map_some']
    congr 1
    ring
  refine ⟨by simp [sampleTimes_of_ne t0 t1 r hne hr1], hget, ?_, ?_, ?_,
    fun h file item_id => main_rows h file ⟨item_id, t0, some (t1, r)⟩⟩
  · intro i hi
    have h1 := hget (i + 1) (by push_cast; omega)
    have h0 := hget i (by omega)
    rw [List.getD_eq_getElem?_getD, List.getD_eq_getElem?_getD, h1, h0]
    simp only [Option.getD_some]
    push_cast
    field_simp
    ring
  · have h0 := hget 0 (by omega)
    simpa using h0
  · have h := hget (r.toNat - 1) (by omega)
    rw [h]
    congr 1
    have hc : ((r.toNat - 1 : Nat) : ℚ) = (r : ℚ) - 1 := by
      have h1 : 1 ≤ r.toNat := by omega
      rw [Nat.cast_sub h1]
      have : ((r.toNat : Nat) : Int) = r := Int.toNat_of_nonneg (by omega)
      have : ((r.toNat : Nat) : ℚ) = (r : ℚ) := by exact_mod_cast this
      rw [this]
      simp
    rw [hc]
    field_simp

theorem sampleTimes_evenly_spaced_witness :
    (sampleTimes 10 20 3).length = (3 : Int).toNat ∧
      (∀ i : Nat, (i : Int) < 3 →
        (sampleTimes 10 20 3)[i]? = some (10 + (i : ℚ) * (20 - 10) / (((3 : Int) : ℚ) - 1))) ∧
      (∀ i : Nat, (i : Int) + 1 < 3 →
        (sampleTimes 10 20 3).getD (i + 1) 0 - (sampleTimes 10 20 3).getD i 0
          = (20 - 10) / (((3 : Int) : ℚ) - 1)) ∧
      (sampleTimes 10 20 3)[0]? = some 10 ∧
      (sampleTimes 10 20 3)[(3 : Int).toNat - 1]? = some 20 ∧
      (∀ (h : Host) (file : FILE) (item_id : Int),
        (main h file ⟨item_id, 10, some (20, 3)⟩).rows.map Row.jd <+: sampleTimes 10 20 3 ∧
        ((main h file ⟨item_id, 10, some (20, 3)⟩).exit = .success →
          (main h file ⟨item_id, 10, some (20, 3)⟩).rows.map Row.jd = sampleTimes 10 20 3)) :=
  sampleTimes_evenly_spaced 10 20 3 (by decide) (by decide)

/-- C5: for a query with resolution 1 or with `t0 = t1` (whatever resolution at least 1
was asked for), the loop visits exactly one sample time, `(t0 + t1) / 2`: the midpoint
when `t0 ≠ t1`, and `t0` itself when `t0 = t1`. A run prints at most that one row,
and exactly that row when it succeeds. -/
theorem sampleTimes_collapse (t0 t1 : ℚ) (r : Int) (_hr : 1 ≤ r) (h : r = 1 ∨ t0 = t1) :
    sampleTimes t0 t1 r = [(t0 + t1) / 2] ∧ (t0 = t1 → sampleTimes t0 t1 r = [t0]) ∧
      (∀ (h : Host) (file : FILE) (item_id : Int),
        (main h file ⟨item_id, t0, some (t1, r)⟩).rows.map Row.jd <+: [(t0 + t1) / 2] ∧
        ((main h file ⟨item_id, t0, some (t1, r)⟩).exit = .success →
          (main h file ⟨item_id, t0, some (t1, r)⟩).rows.map Row.jd = [(t0 + t1) / 2])) := by
  have hs : sampleTimes t0 t1 r = [(t0 + t1) / 2] := by
    simp [sampleTimes, schedule_of_collapse t0 t1 r h, sampleJD]
  refine ⟨hs, fun he => ?_, fun h file item_id => ?_⟩
  · rw [hs, he]
    congr 1
    ring
  · have hm := main_rows h file ⟨item_id, t0, some (t1, r)⟩
    have e1 : Args.jd_end ⟨item_id, t0, some (t1, r)⟩ = t1 := rfl
    have e2 : Args.resolution ⟨item_id, t0, some (t1, r)⟩ = r := rfl
    simp only [e1, e2, hs] at hm
    exact hm

theorem sampleTimes_collapse_witness :
    (sampleTimes 2440500 2440600 1 = [(2440500 + 2440600) / 2] ∧
      ((2440500 : ℚ) = 2440600 → sampleTimes 2440500 2440600 1 = [2440500]) ∧
      (∀ (h : Host) (file : FILE) (item_id : Int),
        (main h file ⟨item_id, 2440500, some (2440600, 1)⟩).rows.map Row.jd
          <+: [(2440500 + 2440600) / 2] ∧
        ((main h file ⟨item_id, 2440500, some (2440600, 1)⟩).exit = .success →
          (main h file ⟨item_id, 2440500, some (2440600, 1)⟩).rows.map Row.jd
            = [(2440500 + 2440600) / 2]))) ∧
    (sampleTimes 2440500 2440500 5 = [(2440500 + 2440500) / 2] ∧
      ((2440500 : ℚ) = 2440500 → sampleTimes 2440500 2440500 5 = [2440500]) ∧
      (∀ (h : Host) (file : FILE) (item_id : Int),
        (main h file ⟨item_id, 2440500, some (2440500, 5)⟩).rows.map Row.jd
          <+: [(2440500 + 2440500) / 2] ∧
        ((main h file ⟨item_id, 2440500, some (2440500, 5)⟩).exit = .success →
          (main h file ⟨item_id, 2440500, some (2440500, 5)⟩).rows.map Row.jd
            = [(2440500 + 2440500) / 2]))) :=
  ⟨sampleTimes_collapse 2440500 2440600 1 (by decide) (Or.inl rfl),
    sampleTimes_collapse 2440500 2440500 5 (by decide) (Or.inr rfl)⟩

/-! ## The example file as the program reads it -/

/-- The header of the example file: the three time doubles, `nconst`, the byte order
chosen, the table entries of items 0 and 1, and the record geometry. -/
theorem exFile_header :
    fileTime host64 exFile 0 = 4880801 / 2 ∧ fileTime host64 exFile 1 = 4880929 / 2 ∧
      fileTime host64 exFile 2 = 32 ∧ (readDenum host64 exFile).2 = false ∧
      (readTables host64 false (readTime host64 false (readDenum host64 exFile).1).2).1 = 400 ∧
      tableAt (fileTable host64 exFile) 0 0 = 352 ∧ tableAt (fileTable host64 exFile) 0 1 = 3 ∧
      tableAt (fileTable host64 exFile) 0 2 = 1 ∧ tableAt (fileTable host64 exFile) 1 2 = 0 ∧
      recNcoeff (fileTable host64 exFile) = 360 :=
  ⟨by decide!, by decide!, by decide!, by decide!, by decide!, by decide!, by decide!,
    by decide!, by decide!, by decide!⟩

/-- A run on the complete example file: three samples from 2440410.5 to 2440450.5,
the first two in record 0 and the third in record 1, with the calls it makes. -/
theorem exFile_run :
    (main host64 exFile ⟨0, 4880821 / 2, some (4880901 / 2, 3)⟩).exit = .success ∧
      (main host64 exFile ⟨0, 4880821 / 2, some (4880901 / 2, 3)⟩).rows
        = [⟨4880821 / 2, [-61 / 32, -35 / 16, -79 / 32], [-5 / 32, -1 / 4, -11 / 32]⟩,
           ⟨4880861 / 2, [139 / 32, 185 / 16, 601 / 32], [25 / 32, 13 / 8, 79 / 32]⟩,
           ⟨4880901 / 2, [103 / 32, 11 / 4, 73 / 32], [23 / 32, 7 / 16, 5 / 32]⟩] ∧
      (main host64 exFile ⟨0, 4880821 / 2, some (4880901 / 2, 3)⟩).file.log
        = [.seekSet 2840, .read 2840 4 1, .seekSet 2652, .read 2652 8 3, .read 2676 4 1,
           .seekSet 2696, .read 2696 4 36, .seekSet 2844, .read 2844 4 3, .read 2856 4 6,
           .seekSet 5760, .read 5760 8 360, .read 8640 8 360] :=
  ⟨by decide!, by decide!, by decide!⟩

/-! ## Theorems: the checks before the first record -/

theorem fread_ntoh_file (swap : Bool) (mem : Nat → Nat) (ptr size count : Nat) (f : FILE) :
    (fread_ntoh swap mem ptr size count f).2.2 = (fread mem ptr size count f).2.2 := by
  unfold fread_ntoh fread_swap
  cases swap
  · rfl
  · by_cases h8 : size = 8
    · simp [h8]
    · by_cases h4 : size = 4
      · simp [h4]
      · simp [h8, h4]

theorem transferred_eq_available (f : FILE) (want : Nat) (hf : f.fault = none) :
    transferred f want = available f want := by
  simp [transferred, hf]

theorem fread_error (mem : Nat → Nat) (ptr size count : Nat) (f : FILE)
    (he : f.error = false) (hf : f.fault = none) :
    (fread mem ptr size count f).2.2.error = false := by
  simp [fread, he, transferred_eq_available f _ hf]

theorem readDenum_error (h : Host) (file : FILE) (he : file.error = false)
    (hf : file.fault = none) : (readDenum h file).1.error = false := by
  exact fread_error h.denum0 0 4 1 (fseek_set file DE_OFFSET_DENUM) he hf

theorem readDenum_log (h : Host) (file : FILE) :
    (readDenum h file).1.log
      = file.log ++ [.seekSet DE_OFFSET_DENUM, .read DE_OFFSET_DENUM 4 1] := by
  simp [readDenum, fread, fseek_set, DE_OFFSET_DENUM]

theorem readTime_log (h : Host) (swap : Bool) (file : FILE) :
    (readTime h swap file).2.log
      = file.log ++ [.seekSet DE_OFFSET_TIME, .read DE_OFFSET_TIME 8 3] := by
  simp [readTime, fread_ntoh_file, fread, fseek_set, DE_OFFSET_TIME]

theorem parseQuery_of_valid (a : Args)
    (hid : DE_MIN_ITEM_ID ≤ a.item_id ∧ a.item_id ≤ DE_MAX_ITEM_ID) (hres : 1 ≤ a.resolution) :
    parseQuery a = .ok (Query.mk a.item_id (startSample a) a.jd_end
      (schedule a.t0 a.jd_end a.resolution).2.1 (schedule a.t0 a.jd_end a.resolution).2.2) := by
  have h1 : ¬ (a.item_id < DE_MIN_ITEM_ID ∨ a.item_id > DE_MAX_ITEM_ID) := by omega
  have h2 : ¬ (a.range.isSome ∧ a.resolution ≤ 0) := by
    intro h
    omega
  simp only [parseQuery, h1, h2, if_false, startSample]

theorem sound_fseek_set (f : FILE) (offset : Int) (hf : Sound f) : Sound (fseek_set f offset) :=
  hf

theorem sound_fseek_cur (f : FILE) (offset : Int) (hf : Sound f) : Sound (fseek_cur f offset) :=
  hf

theorem sound_fread (mem : Nat → Nat) (ptr size count : Nat) (f : FILE) (hf : Sound f) :
    Sound (fread mem ptr size count f).2.2 :=
  ⟨fread_error mem ptr size count f hf.1 hf.2, hf.2⟩

theorem sound_fread_ntoh (swap : Bool) (mem : Nat → Nat) (ptr size count : Nat) (f : FILE)
    (hf : Sound f) : Sound (fread_ntoh swap mem ptr size count f).2.2 := by
  rw [fread_ntoh_file]
  exact sound_fread mem ptr size count f hf

theorem sound_readDenum (h : Host) (file : FILE) (hf : Sound file) :
    Sound (readDenum h file).1 :=
  sound_fread h.denum0 0 4 1 _ (sound_fseek_set file DE_OFFSET_DENUM hf)

theorem sound_readTime (h : Host) (swap : Bool) (file : FILE) (hf : Sound file) :
    Sound (readTime h swap file).2 :=
  sound_fread_ntoh swap h.file_time0 0 8 3 _ (sound_fseek_set file DE_OFFSET_TIME hf)

theorem sound_readTables (h : Host) (swap : Bool) (file : FILE) (hf : Sound file) :
    Sound (readTables h swap file).2.2 := by
  unfold readTables
  simp only
  apply sound_fread_ntoh
  have h2 : Sound (fread_ntoh swap (fread_ntoh swap h.table0 0 4 (12 * 3)
      (fseek_set (fread_ntoh swap h.nconst0 0 4 1 file).2.2 DE_OFFSET_TABLE1)).1 144 4 3
      (fseek_set (fread_ntoh swap h.table0 0 4 (12 * 3)
        (fseek_set (fread_ntoh swap h.nconst0 0 4 1 file).2.2 DE_OFFSET_TABLE1)).2.2
        DE_OFFSET_TABLE2)).2.2 := by
    apply sound_fread_ntoh
    apply sound_fseek_set
    apply sound_fread_ntoh
    apply sound_fseek_set
    exact sound_fread_ntoh swap h.nconst0 0 4 1 file hf
  split
  · exact sound_fseek_cur _ _ h2
  · exact h2

theorem main_item_empty (h : Host) (file : FILE) (a : Args) (q : Query)
    (hq : parseQuery a = .ok q) (hf : Sound file)
    (hdate : ¬ dateCheckFails h file q.jd_start q.jd_end)
    (hitem : tableAt (fileTable h file) q.item_id.toNat 2 = 0) :
    (main h file a).exit = .error .no_item ∧ (main h file a).rows = [] := by
  have hden := (sound_readDenum h file hf).1
  have htab := (sound_readTables h (readDenum h file).2 _
    (sound_readTime h (readDenum h file).2 _ (sound_readDenum h file hf))).1
  unfold dateCheckFails fileTime at hdate
  unfold fileTable at hitem
  unfold main
  simp only [hq, hden, Bool.false_eq_true, if_false, hdate, htab, hitem, if_true, and_self]

theorem main_item_empty_fails (h : Host) (file : FILE) (a : Args)
    (hitem : tableAt (fileTable h file) a.item_id.toNat 2 = 0) :
    (main h file a).exit ≠ .success ∧ (main h file a).rows = [] := by
  unfold fileTable at hitem
  unfold main
  split
  · simp
  · rename_i q hq
    have hid : q.item_id = a.item_id := (parseQuery_ok a q hq).2.1
    simp only
    split
    · simp
    · split
      · simp
      · split
        · simp
        · rw [hid]
          simp [hitem]

/-- C7, amended: a query whose item id is outside `[0, 14]` fails with "item not found"
and prints no row; so does a query with an item id in `[0, 14]` whose entry in the
table has `subintervals_per_record = 0`, when the stream has no read error and the
times pass the range check of line 194 (that check and the read-error check come
first); and whatever the times and the stream, a query for such an item fails and
prints no row. -/
theorem item_not_found (h : Host) (file : FILE) (a : Args) :
    ((a.item_id < DE_MIN_ITEM_ID ∨ a.item_id > DE_MAX_ITEM_ID) →
        (main h file a).exit = .error .no_item ∧ (main h file a).rows = []) ∧
      (DE_MIN_ITEM_ID ≤ a.item_id ∧ a.item_id ≤ DE_MAX_ITEM_ID → 1 ≤ a.resolution →
        Sound file → ¬ dateCheckFails h file (startSample a) a.jd_end →
        tableAt (fileTable h file) a.item_id.toNat 2 = 0 →
        (main h file a).exit = .error .no_item ∧ (main h file a).rows = []) ∧
      (tableAt (fileTable h file) a.item_id.toNat 2 = 0 →
        (main h file a).exit ≠ .success ∧ (main h file a).rows = []) ∧
      Err.msg .no_item = "item not found" := by
  refine ⟨fun hid => ?_, fun hid hres hf hdate hitem => ?_,
    fun hitem => main_item_empty_fails h file a hitem, rfl⟩
  · unfold main parseQuery
    simp [hid]
  · exact main_item_empty h file a _ (parseQuery_of_valid a hid hres) hf hdate hitem

theorem item_not_found_witness :
    ((main host64 exFile ⟨15, 4880821 / 2, none⟩).exit = .error .no_item ∧
        (main host64 exFile ⟨15, 4880821 / 2, none⟩).rows = []) ∧
      ((main host64 exFile ⟨1, 4880821 / 2, none⟩).exit = .error .no_item ∧
        (main host64 exFile ⟨1, 4880821 / 2, none⟩).rows = []) :=
  ⟨(item_not_found host64 exFile ⟨15, 4880821 / 2, none⟩).1 (by decide),
    (item_not_found host64 exFile ⟨1, 4880821 / 2, none⟩).2.1 (by decide) (by decide)
      ⟨rfl, rfl⟩ (by unfold dateCheckFails; decide!) (by decide!)⟩

/-- C7 as stated fails: item 1 of the example file has `subintervals_per_record = 0`,
and the query for it with `t0 = 2440390.5`, below `time_start`, fails with "date out
of range", not "item not found". -/
theorem empty_item_date_error_first :
    Sound exFile ∧ tableAt (fileTable host64 exFile) 1 2 = 0 ∧
      (main host64 exFile ⟨1, 4880781 / 2, some (4880861 / 2, 2)⟩).exit = .error .date :=
  ⟨⟨rfl, rfl⟩, by decide!, by decide!⟩

/-- C8, the code at a failing input: the example file cut 16 bytes into record 1, three
samples from 2440410.5 to 2440450.5. The read of record 1 transfers 16 of its 2880
bytes; the end of the file sets no error indicator, so the run succeeds, and its third
row is computed from the dates of record 1 and the coefficients of record 0 still in
the buffer. On the complete file the third row differs. -/
theorem short_read_goes_unnoticed :
    Sound exFileCut ∧
      (main host64 exFileCut ⟨0, 4880821 / 2, some (4880901 / 2, 3)⟩).exit = .success ∧
      (main host64 exFileCut ⟨0, 4880821 / 2, some (4880901 / 2, 3)⟩).file.log.getLast?
        = some (.read 8640 8 360) ∧
      (main host64 exFileCut ⟨0, 4880821 / 2, some (4880901 / 2, 3)⟩).file.pos = 8640 + 16 ∧
      (main host64 exFileCut ⟨0, 4880821 / 2, some (4880901 / 2, 3)⟩).rows[2]?
        = some ⟨4880901 / 2, [-53 / 32, -19 / 16, -23 / 32], [7 / 32, 1 / 2, 25 / 32]⟩ ∧
      (main host64 exFile ⟨0, 4880821 / 2, some (4880901 / 2, 3)⟩).rows[2]?
        = some ⟨4880901 / 2, [103 / 32, 11 / 4, 73 / 32], [23 / 32, 7 / 16, 5 / 32]⟩ :=
  ⟨⟨rfl, rfl⟩, by decide!, by decide!, by decide!, by decide!, by decide!⟩

/-! ## Theorems: skipping records -/

theorem seekDistances_append (l1 l2 : List IOEvent) :
    seekDistances (l1 ++ l2) = seekDistances l1 ++ seekDistances l2 := by
  induction l1 with
  | nil => rfl
  | cons e l1 ih => cases e <;> simp [seekDistances, ih]

theorem seekDistances_map_seekCur (ds : List Int) :
    seekDistances (ds.map IOEvent.seekCur) = ds := by
  induction ds with
  | nil => rfl
  | cons d ds ih => simp [seekDistances, ih]

theorem reads_append (l1 l2 : List IOEvent) : reads (l1 ++ l2) = reads l1 ++ reads l2 := by
  induction l1 with
  | nil => rfl
  | cons e l1 ih => cases e <;> simp [reads, ih]

theorem reads_map_seekCur (ds : List Int) : reads (ds.map IOEvent.seekCur) = [] := by
  induction ds with
  | nil => rfl
  | cons d ds ih => simp [reads, ih]

theorem fseek_cur_pos (f : FILE) (offset : Int) (h : 0 ≤ f.pos + offset) :
    (fseek_cur f offset).pos = f.pos + offset := by
  have : ¬ (f.pos + offset < 0) := by omega
  simp [fseek_cur, this]

/-- The loop of lines 257-261 with a positive `max_rec_skip` and enough fuel: it makes
`q` seeks of `max_rec_skip_size` bytes and leaves `rec_skip - q * max_rec_skip`, which
is below `max_rec_skip`. -/
theorem skipLoop_eq (m msz : Int) (hm : 0 < m) (hmsz : 0 ≤ msz) :
    ∀ (fuel : Nat) (rec_skip : Int) (f : FILE), rec_skip.toNat < fuel →
      ∃ (q : Nat) (f' : FILE),
        skipLoop m msz fuel rec_skip f = some (rec_skip - q * m, f') ∧
        rec_skip - q * m < m ∧ (0 ≤ rec_skip → 0 ≤ rec_skip - q * m) ∧
        (rec_skip < m → q = 0) ∧
        f'.log = f.log ++ (List.replicate q msz).map IOEvent.seekCur ∧
        (0 ≤ f.pos → f'.pos = f.pos + q * msz) ∧ f'.bytes = f.bytes ∧ f'.size = f.size ∧
        f'.error = f.error ∧ f'.fault = f.fault := by
  intro fuel
  induction fuel with
  | zero =>
    intro rec_skip f hlt
    exact absurd hlt (Nat.not_lt_zero _)
  | succ fuel ih =>
    intro rec_skip f hlt
    by_cases hge : rec_skip ≥ m
    · have hfuel : (rec_skip - m).toNat < fuel := by omega
      obtain ⟨q, f', hrun, hlt', hnn, _, hlog, hp, hb, hs, he, hfa⟩ :=
        ih (rec_skip - m) (fseek_cur f msz) hfuel
      have hq : rec_skip - ((q + 1 : Nat) : Int) * m = rec_skip - m - q * m := by
        push_cast
        ring
      refine ⟨q + 1, f', ?_, ?_, ?_, ?_, ?_, ?_, hb, hs, he, hfa⟩
      · rw [skipLoop, if_pos hge, hrun, hq]
      · rw [hq]
        exact hlt'
      · intro _
        rw [hq]
        exact hnn (by omega)
      · intro hlt2
        omega
      · rw [hlog, List.replicate_succ, List.map_cons]
        simp [fseek_cur]
      · intro hpos
        have hpos1 : (fseek_cur f msz).pos = f.pos + msz := fseek_cur_pos f msz (by omega)
        rw [hp (by omega), hpos1]
        push_cast
        ring
    · refine ⟨0, f, ?_, ?_, ?_, ?_, ?_, ?_, rfl, rfl, rfl, rfl⟩
      · rw [skipLoop, if_neg hge]
        simp
      · simp only [Nat.cast_zero, zero_mul, sub_zero]
        omega
      · intro h0
        simpa using h0
      · intro _
        rfl
      · simp
      · simp

/-- Lines 256-265 with a positive `max_rec_skip`: the seeks made to skip `k` records. -/
theorem skipRecords_eq (S m : Int) (hS : 0 < S) (hm : 0 < m) (k : Int) (f : FILE) :
    ∃ (ds : List Int) (f' : FILE),
      skipRecords S m (S * m) k f = some f' ∧
      f'.log = f.log ++ ds.map IOEvent.seekCur ∧ ds.sum = k * S ∧
      (0 ≤ f.pos → 0 ≤ f.pos + S * k → f'.pos = f.pos + S * k) ∧
      f'.bytes = f.bytes ∧ f'.size = f.size ∧
      f'.error = f.error ∧ f'.fault = f.fault := by
  have hmsz : 0 ≤ S * m := by positivity
  obtain ⟨q, f1, hrun, hlt, hnn, hq0, hlog, hp, hb, hs, he, hfa⟩ :=
    skipLoop_eq m (S * m) hm hmsz (k.toNat + 1) k f (Nat.lt_succ_self _)
  by_cases hr : k - q * m ≠ 0
  · refine ⟨List.replicate q (S * m) ++ [S * (k - q * m)], fseek_cur f1 (S * (k - q * m)),
      ?_, ?_, ?_, ?_, hb, hs, he, hfa⟩
    · rw [skipRecords, hrun]
      simp only [hr, if_true, ne_eq, not_false_eq_true]
    · simp [fseek_cur, hlog]
    · simp only [List.sum_append, List.sum_replicate, List.sum_cons, List.sum_nil, smul_eq_mul,
        nsmul_eq_mul]
      ring
    · intro hpos hpos'
      have e : f1.pos + S * (k - q * m) = f.pos + S * k := by
        rw [hp hpos]
        ring
      rw [fseek_cur_pos f1 _ (by omega), e]
  · have hr0 : k - q * m = 0 := by
      by_contra hne
      exact hr hne
    have hk : k = q * m := by omega
    refine ⟨List.replicate q (S * m), f1, ?_, hlog, ?_, ?_, hb, hs, he, hfa⟩
    · rw [skipRecords, hrun]
      simp [hr0]
    · simp only [List.sum_replicate, nsmul_eq_mul]
      rw [hk]
      ring
    · intro hpos _
      rw [hp hpos]
      have e : S * k = q * (S * m) := by
        rw [hk]
        ring
      rw [e]

theorem max_rec_skip_pos (LONG_MAX S : Int) (hS : 0 < S) (hmax : S ≤ LONG_MAX) :
    0 < LONG_MAX / S :=
  Int.le_ediv_of_mul_le hS (by omega)

/-- C9: for every record size `S` with `0 < S ≤ LONG_MAX` and every number `k ≥ 0` of
records to skip (also beyond `LONG_MAX / S`, the most one seek can express), lines
256-265 end, the relative seeks they issue, those of the loop and the final one, are
the only calls they make, and their distances sum to exactly `k * S` bytes. -/
theorem skip_distances_sum (LONG_MAX S k : Int) (f : FILE) (hS : 0 < S) (hmax : S ≤ LONG_MAX)
    (_hk : 0 ≤ k) :
    ∃ (ds : List Int) (f' : FILE),
      skipRecords S (LONG_MAX / S) (S * (LONG_MAX / S)) k f = some f' ∧
      f'.log = f.log ++ ds.map IOEvent.seekCur ∧
      seekDistances f'.log = seekDistances f.log ++ ds ∧ ds.sum = k * S := by
  obtain ⟨ds, f', hrun, hlog, hsum, _⟩ :=
    skipRecords_eq S (LONG_MAX / S) hS (max_rec_skip_pos LONG_MAX S hS hmax) k f
  exact ⟨ds, f', hrun, hlog, by rw [hlog, seekDistances_append, seekDistances_map_seekCur], hsum⟩

theorem skip_distances_sum_witness :
    ∃ (ds : List Int) (f' : FILE),
      skipRecords 2880 ((2 ^ 31 - 1) / 2880) (2880 * ((2 ^ 31 - 1) / 2880)) 2000000 exFile
        = some f' ∧
      f'.log = exFile.log ++ ds.map IOEvent.seekCur ∧
      seekDistances f'.log = seekDistances exFile.log ++ ds ∧ ds.sum = 2000000 * 2880 :=
  skip_distances_sum (2 ^ 31 - 1) 2880 2000000 exFile (by decide) (by decide) (by decide)

/-- With a 32-bit `long` and records of 2880 bytes, skipping 2000000 records takes two
seeks of `2880 * 745654` bytes and one of the remaining `2880 * 508692`. -/
theorem skipRecords_example :
    (skipRecords 2880 ((2 ^ 31 - 1) / 2880) (2880 * ((2 ^ 31 - 1) / 2880)) 2000000 exFile).map
        (fun f => seekDistances f.log)
      = some [2147483520, 2147483520, 1465032960] := by
  decide!

/-! ## Theorems: the record locator -/

theorem load_congr (m1 m2 : Nat → Nat) :
    ∀ (size ptr : Nat), (∀ j, j < size → m1 (ptr + j) = m2 (ptr + j)) →
      load m1 ptr size = load m2 ptr size := by
  intro size
  induction size with
  | zero => intro _ _; rfl
  | succ size ih =>
    intro ptr hm
    have h0 : m1 ptr = m2 ptr := hm 0 (Nat.succ_pos _)
    rw [load, load, ih (ptr + 1), h0]
    intro j hj
    have := hm (j + 1) (by omega)
    rw [show ptr + 1 + j = ptr + (j + 1) by omega]
    exact this

theorem fread_ntoh_log (swap : Bool) (mem : Nat → Nat) (ptr size count : Nat) (f : FILE) :
    (fread_ntoh swap mem ptr size count f).2.2.log = f.log ++ [IOEvent.read f.pos size count] := by
  rw [fread_ntoh_file]
  rfl

/-- C11: when the target record is the one held (`rec_index[0] == rec_index[1]`), lines
250-273 make no call on the stream and leave the stream, with its position, the index
and the buffer as they are. When it differs (record size `S`, `0 < S ≤ LONG_MAX`), the
calls made are relative seeks followed by exactly one read, of `rec_ncoeff` doubles,
and then either the error indicator is clear and the record held is the target, or it
is set and the run ends with "file read failed". -/
theorem locator_frame (swap : Bool) (LONG_MAX N S target : Int) (r : Resident)
    (hS : 0 < S) (hmax : S ≤ LONG_MAX) :
    (r.rec_index = target →
        locate swap N S (LONG_MAX / S) (S * (LONG_MAX / S)) target r = .resident r) ∧
      (r.rec_index ≠ target →
        ∃ (ds : List Int) (p : Int) (file : FILE) (rec_buf : Nat → Nat),
          file.log = r.file.log ++ ds.map IOEvent.seekCur ++ [IOEvent.read p 8 N.toNat] ∧
          reads file.log = reads r.file.log ++ [IOEvent.read p 8 N.toNat] ∧
          ((file.error = false ∧
              locate swap N S (LONG_MAX / S) (S * (LONG_MAX / S)) target r
                = .resident { file := file, rec_index := target, rec_buf := rec_buf }) ∨
            (file.error = true ∧
              locate swap N S (LONG_MAX / S) (S * (LONG_MAX / S)) target r
                = .readError file))) := by
  refine ⟨fun he => by simp [locate, he], fun hne => ?_⟩
  obtain ⟨ds, f1, hrun, hlog, _⟩ :=
    skipRecords_eq S (LONG_MAX / S) hS (max_rec_skip_pos LONG_MAX S hS hmax)
      (target - r.rec_index - 1) r.file
  have hl := fread_ntoh_log swap r.rec_buf 0 8 N.toNat f1
  refine ⟨ds, f1.pos, (fread_ntoh swap r.rec_buf 0 8 N.toNat f1).2.2,
    (fread_ntoh swap r.rec_buf 0 8 N.toNat f1).1, ?_, ?_, ?_⟩
  · rw [hl, hlog]
  · rw [hl, hlog, reads_append, reads_append, reads_map_seekCur]
    simp [reads]
  · cases he : (fread_ntoh swap r.rec_buf 0 8 N.toNat f1).2.2.error with
    | false =>
      left
      refine ⟨rfl, ?_⟩
      simp only [locate, hne, if_true, ne_eq, not_false_eq_true, hrun, he,
        Bool.false_eq_true, if_false]
    | true =>
      right
      refine ⟨rfl, ?_⟩
      simp only [locate, hne, if_true, ne_eq, not_false_eq_true, hrun, he]

theorem locator_frame_witness :
    locate false 360 2880 ((2 ^ 63 - 1) / 2880) (2880 * ((2 ^ 63 - 1) / 2880)) 0
          { file := exFile, rec_index := 0, rec_buf := host64.heap }
        = .resident { file := exFile, rec_index := 0, rec_buf := host64.heap } ∧
      ∃ (ds : List Int) (p : Int) (file : FILE) (rec_buf : Nat → Nat),
        file.log = exFile.log ++ ds.map IOEvent.seekCur
          ++ [IOEvent.read p 8 (360 : Int).toNat] ∧
        reads file.log = reads exFile.log ++ [IOEvent.read p 8 (360 : Int).toNat] ∧
        ((file.error = false ∧
            locate false 360 2880 ((2 ^ 63 - 1) / 2880) (2880 * ((2 ^ 63 - 1) / 2880)) 1
                { file := exFile, rec_index := 0, rec_buf := host64.heap }
              = .resident { file := file, rec_index := 1, rec_buf := rec_buf }) ∨
          (file.error = true ∧
            locate false 360 2880 ((2 ^ 63 - 1) / 2880) (2880 * ((2 ^ 63 - 1) / 2880)) 1
                { file := exFile, rec_index := 0, rec_buf := host64.heap }
              = .readError file)) :=
  ⟨(locator_frame false (2 ^ 63 - 1) 360 2880 0
      { file := exFile, rec_index := 0, rec_buf := host64.heap } (by decide) (by decide)).1 rfl,
    (locator_frame false (2 ^ 63 - 1) 360 2880 1
      { file := exFile, rec_index := 0, rec_buf := host64.heap } (by decide) (by decide)).2
      (by decide)⟩

/-! ## Theorems: the record geometry -/

/-- The running maximum of lines 218-223 over a list of items, from `init`. -/
theorem foldl_max_spec (g : Nat → Int) :
    ∀ (l : List Nat) (init : Int),
      init ≤ l.foldl (fun acc i => if g i > acc then g i else acc) init ∧
      (∀ i ∈ l, g i ≤ l.foldl (fun acc i => if g i > acc then g i else acc) init) ∧
      (l.foldl (fun acc i => if g i > acc then g i else acc) init = init ∨
        ∃ i ∈ l, l.foldl (fun acc i => if g i > acc then g i else acc) init = g i) := by
  intro l
  induction l with
  | nil =>
    intro init
    exact ⟨le_refl _, fun i hi => absurd hi (List.not_mem_nil i), Or.inl rfl⟩
  | cons a l ih =>
    intro init
    obtain ⟨h1, h2, h3⟩ := ih (if g a > init then g a else init)
    simp only [List.foldl_cons]
    refine ⟨?_, ?_, ?_⟩
    · have : init ≤ (if g a > init then g a else init) := by
        split <;> omega
      exact le_trans this h1
    · intro i hi
      rcases List.mem_cons.mp hi with rfl | hi
      · have : g i ≤ (if g i > init then g i else init) := by
          split <;> omega
        exact le_trans this h1
      · exact h2 i hi
    · rcases h3 with h3 | ⟨i, hi, h3⟩
      · by_cases hg : g a > init
        · right
          exact ⟨a, List.mem_cons_self a l, by rw [h3, if_pos hg]⟩
        · left
          rw [h3, if_neg hg]
      · right
        exact ⟨i, List.mem_cons_of_mem a hi, h3⟩

/-- The coefficient count of lines 217-223: at least 0 and at least the count of every
item, and equal to 0 or to the count of some item. -/
theorem recNcoeff_spec (table : Nat → Nat) :
    0 ≤ recNcoeff table ∧ (∀ i, i < 15 → itemNcoeff table i ≤ recNcoeff table) ∧
      (recNcoeff table = 0 ∨ ∃ i, i < 15 ∧ recNcoeff table = itemNcoeff table i) := by
  obtain ⟨h1, h2, h3⟩ := foldl_max_spec (itemNcoeff table) (List.range 15) 0
  refine ⟨h1, fun i hi => h2 i (List.mem_range.mpr hi), ?_⟩
  rcases h3 with h3 | ⟨i, hi, h3⟩
  · exact Or.inl h3
  · exact Or.inr ⟨i, List.mem_range.mp hi, h3⟩

/-- An `int` operation whose exact result fits returns that result. -/
theorem wrap32_of_fits (z : Int) (h : fitsInt32 z) : wrap32 z = z := by
  unfold fitsInt32 at h
  unfold wrap32
  omega

/-- The result of an `int` operation differs from the exact one by a multiple of
`2 ^ 32`, and fits. -/
theorem wrap32_spec (z : Int) :
    wrap32 z = z - 2 ^ 32 * ((z + 2 ^ 31) / 2 ^ 32) ∧ fitsInt32 (wrap32 z) := by
  unfold fitsInt32 wrap32
  omega

/-- Results that differ by a multiple of `2 ^ 32` wrap to the same `int`. -/
theorem wrap32_add_mul (z k : Int) : wrap32 (z + 2 ^ 32 * k) = wrap32 z := by
  unfold wrap32
  rw [show z + 2 ^ 32 * k + 2 ^ 31 = z + 2 ^ 31 + 2 ^ 32 * k by ring,
    Int.add_mul_emod_self_left]

/-- Line 220 delivers the count of the item reduced to an `int`: wrapping after every
operation is wrapping once. -/
theorem itemNcoeff_eq_wrap32 (table : Nat → Nat) (i : Nat) :
    itemNcoeff table i = wrap32 (itemCount table i) := by
  unfold itemNcoeff itemCount
  generalize tableAt table i 0 = a
  generalize tableAt table i 1 * tableAt table i 2 = p
  generalize DE_NCOMP.getD i 0 = c
  have e1 : wrap32 (wrap32 p * c) = wrap32 (p * c) := by
    rw [(wrap32_spec p).1,
      show (p - 2 ^ 32 * ((p + 2 ^ 31) / 2 ^ 32)) * c
        = p * c + 2 ^ 32 * (-((p + 2 ^ 31) / 2 ^ 32) * c) by ring, wrap32_add_mul]
  have e2 : wrap32 (a + wrap32 (p * c)) = wrap32 (a + p * c) := by
    rw [(wrap32_spec (p * c)).1,
      show a + (p * c - 2 ^ 32 * ((p * c + 2 ^ 31) / 2 ^ 32))
        = a + p * c + 2 ^ 32 * (-((p * c + 2 ^ 31) / 2 ^ 32)) by ring, wrap32_add_mul]
  have e3 : wrap32 (wrap32 (a + p * c) - 1) = wrap32 (a + p * c - 1) := by
    rw [(wrap32_spec (a + p * c)).1,
      show a + p * c - 2 ^ 32 * ((a + p * c + 2 ^ 31) / 2 ^ 32) - 1
        = a + p * c - 1 + 2 ^ 32 * (-((a + p * c + 2 ^ 31) / 2 ^ 32)) by ring, wrap32_add_mul]
  rw [e1, e2, e3]

/-- Where no operation of line 220 overflows, it delivers the count of the item. -/
theorem itemNcoeff_of_fits (table : Nat → Nat) (i : Nat) (h : itemFits table i) :
    itemNcoeff table i = itemCount table i := by
  rw [itemNcoeff_eq_wrap32]
  exact wrap32_of_fits _ h.2.2.2

/-- Past its checks, `main` runs the loop of line 242 with the record geometry of
lines 216-239: `rec_ncoeff`, `rec_size = rec_ncoeff * sizeof(double)`, the stream at
byte `2 * rec_size`, no record held. -/
theorem main_eq_sampleLoop (h : Host) (file : FILE) (a : Args) (q : Query)
    (hq : parseQuery a = .ok q) (hf : Sound file)
    (hdate : ¬ dateCheckFails h file q.jd_start q.jd_end)
    (hitem : tableAt (fileTable h file) q.item_id.toNat 2 ≠ 0)
    (hsize : recSize (fileTable h file) ≠ 0) :
    main h file a
      = sampleLoop h
          { query := q, swap := (readDenum h file).2, time_start := fileTime h file 0,
            record_span := fileTime h file 2, table := fileTable h file,
            rec_ncoeff := recNcoeff (fileTable h file), rec_size := recSize (fileTable h file),
            max_rec_skip := h.LONG_MAX / recSize (fileTable h file),
            max_rec_skip_size
              := recSize (fileTable h file) * (h.LONG_MAX / recSize (fileTable h file)) }
          q.resolution.toNat 0
          { file := fseek_set (readTables h (readDenum h file).2
                (readTime h (readDenum h file).2 (readDenum h file).1).2).2.2
              (recSize (fileTable h file) * 2),
            rec_index := -1, rec_buf := h.heap } [] := by
  have hden := (sound_readDenum h file hf).1
  have htab := (sound_readTables h (readDenum h file).2 _
    (sound_readTime h (readDenum h file).2 _ (sound_readDenum h file hf))).1
  unfold dateCheckFails fileTime at hdate
  unfold fileTable at hitem
  unfold recSize fileTable at hsize
  unfold main
  simp only [hq, hden, Bool.false_eq_true, if_false, hdate, htab, hitem, hsize]
  rfl

/-- C12, amended: for every table read from the header in which no item's count
overflows the `int` arithmetic of line 220 (the two products, the sum and the
difference fit 32 bits), `rec_ncoeff` is the larger of 0 and the maximum over the items
`i = 0..14` of
`coeff_offset[i] + coeffs_per_component[i] * subintervals_per_record[i] * component_count[i] - 1`,
with `component_count = (3,3,3,3,3,3,3,3,3,3,3,2,3,3,1)`: line 220 computes that
count, `rec_ncoeff` is at least 0 and at least every item's count, it is 0 or the count
of some item, and it is the maximum itself as soon as one count is not negative. The
record size in bytes is `8 * rec_ncoeff`. -/
theorem rec_ncoeff_is_max_with_zero (table : Nat → Nat)
    (hfit : ∀ i, i < 15 → itemFits table i) :
    (∀ i, itemCount table i
        = tableAt table i 0 + tableAt table i 1 * tableAt table i 2
            * ([3, 3, 3, 3, 3, 3, 3, 3, 3, 3, 3, 2, 3, 3, 1] : List Int).getD i 0 - 1) ∧
      (∀ i, i < 15 → itemNcoeff table i = itemCount table i) ∧
      0 ≤ recNcoeff table ∧ (∀ i, i < 15 → itemCount table i ≤ recNcoeff table) ∧
      (recNcoeff table = 0 ∨ ∃ i, i < 15 ∧ recNcoeff table = itemCount table i) ∧
      ((∃ i, i < 15 ∧ 0 ≤ itemCount table i) →
        ∃ i, i < 15 ∧ recNcoeff table = itemCount table i) ∧
      recSize table = 8 * recNcoeff table := by
  obtain ⟨h1, h2, h3⟩ := recNcoeff_spec table
  have hc : ∀ i, i < 15 → itemNcoeff table i = itemCount table i :=
    fun i hi => itemNcoeff_of_fits table i (hfit i hi)
  have h2c : ∀ i, i < 15 → itemCount table i ≤ recNcoeff table := by
    intro i hi
    rw [← hc i hi]
    exact h2 i hi
  have h3c : recNcoeff table = 0 ∨ ∃ i, i < 15 ∧ recNcoeff table = itemCount table i := by
    rcases h3 with h0 | ⟨i, hi, h3⟩
    · exact Or.inl h0
    · exact Or.inr ⟨i, hi, by rw [h3, hc i hi]⟩
  refine ⟨fun i => rfl, hc, h1, h2c, h3c, ?_, by rw [recSize]; ring⟩
  rintro ⟨i, hi, hpos⟩
  rcases h3c with h0 | h3c
  · have := h2c i hi
    exact ⟨i, hi, by omega⟩
  · exact h3c

/-- C12 as stated fails, in two ways. In the table of the example file with the entry
`(0, 0, 1)` for item 0, every item has the count `-1`, so their maximum is `-1`, while
`rec_ncoeff`, which starts from 0, is 0. In the table of the example file with the
entry `(1, 65536, 65536)` for item 1, the count of item 1 is `12884901888`, while line
220, in `int` arithmetic, delivers 0 for it and `rec_ncoeff` is 360, the count of
item 0. -/
theorem rec_ncoeff_not_max :
    (Sound exFileFlat ∧ tableAt (fileTable host64 exFileFlat) 0 2 = 1 ∧
      recNcoeff (fileTable host64 exFileFlat) = 0 ∧
      ∀ i, i < 15 → itemCount (fileTable host64 exFileFlat) i = -1) ∧
    (Sound exFileWide ∧ itemCount (fileTable host64 exFileWide) 1 = 12884901888 ∧
      itemNcoeff (fileTable host64 exFileWide) 1 = 0 ∧
      recNcoeff (fileTable host64 exFileWide) = 360 ∧
      ∀ i, i < 15 → itemCount (fileTable host64 exFileWide) i ≤ 12884901888) :=
  ⟨⟨⟨rfl, rfl⟩, by decide!, by decide!, by decide!⟩,
    ⟨⟨rfl, rfl⟩, by decide!, by decide!, by decide!, by decide!⟩⟩

theorem rec_ncoeff_is_max_with_zero_witness :
    (∀ i, i < 15 → itemFits (fileTable host64 exFile) i) ∧
      ∃ i, i < 15 ∧ recNcoeff (fileTable host64 exFile) = itemCount (fileTable host64 exFile) i :=
  ⟨by decide!,
    (rec_ncoeff_is_max_with_zero (fileTable host64 exFile) (by decide!)).2.2.2.2.2.1
      ⟨0, by decide, by decide!⟩⟩

/-! ## Theorems: byte order -/

theorem mask32_hi : ∀ k, k < 64 →
    Nat.testBit 0xFF00FF00 k = decide (k < 32 ∧ k / 8 % 2 = 1) := by decide!
theorem mask32_lo : ∀ k, k < 64 →
    Nat.testBit 0xFF00FF k = decide (k < 32 ∧ k / 8 % 2 = 0) := by decide!

theorem swap32_testBit (x : Nat) (j : Nat) (hj : j < 32) :
    (swap32 x).testBit j = x.testBit (8 * (3 - j / 8) + j % 8) := by
  unfold swap32
  simp only [Nat.testBit_or, Nat.testBit_and, Nat.testBit_mod_two_pow, Nat.testBit_shiftLeft,
    Nat.testBit_shiftRight]
  interval_cases j <;> simp [mask32_hi, mask32_lo]

theorem swap32_lt (x : Nat) : swap32 x < 2 ^ 32 := by
  unfold swap32
  apply Nat.or_lt_two_pow
  · exact Nat.mod_lt _ (by decide)
  · rw [Nat.shiftRight_eq_div_pow]
    apply lt_of_le_of_lt (Nat.div_le_self _ _)
    apply Nat.or_lt_two_pow
    · exact lt_of_le_of_lt Nat.and_le_right (by decide)
    · exact lt_of_le_of_lt Nat.and_le_right (by decide)

theorem testBit_byteOf (w i k : Nat) :
    (byteOf w i).testBit k = (decide (k < 8) && w.testBit (8 * i + k)) := by
  have e : byteOf w i = (w >>> (8 * i)) % 2 ^ 8 := by
    rw [byteOf, Nat.shiftRight_eq_div_pow, pow_mul]
    norm_num
  rw [e, Nat.testBit_mod_two_pow, Nat.testBit_shiftRight]

theorem byteOf_swap32 (x i : Nat) (hi : i < 4) : byteOf (swap32 x) i = byteOf x (3 - i) := by
  apply Nat.eq_of_testBit_eq
  intro k
  rw [testBit_byteOf, testBit_byteOf]
  by_cases hk : k < 8
  · rw [swap32_testBit x (8 * i + k) (by omega)]
    have e1 : (8 * i + k) / 8 = i := by omega
    have e2 : (8 * i + k) % 8 = k := by omega
    rw [e1, e2]
  · simp [hk]

theorem swap32_swap32 (x : Nat) (hx : x < 2 ^ 32) : swap32 (swap32 x) = x := by
  apply Nat.eq_of_testBit_eq
  intro k
  by_cases hk : k < 32
  · rw [swap32_testBit _ k hk, swap32_testBit _ _ (by omega)]
    congr 1
    omega
  · have h1 : swap32 (swap32 x) < 2 ^ k :=
      lt_of_lt_of_le (swap32_lt _) (Nat.pow_le_pow_right (by decide) (by omega))
    have h2 : x < 2 ^ k := lt_of_lt_of_le hx (Nat.pow_le_pow_right (by decide) (by omega))
    rw [Nat.testBit_lt_two_pow h1, Nat.testBit_lt_two_pow h2]

theorem mask64_a : ∀ k, k < 128 →
    Nat.testBit 0xFF00FF00FF00FF00 k = decide (k < 64 ∧ k / 8 % 2 = 1) := by decide!
theorem mask64_b : ∀ k, k < 128 →
    Nat.testBit 0x00FF00FF00FF00FF k = decide (k < 64 ∧ k / 8 % 2 = 0) := by decide!
theorem mask64_c : ∀ k, k < 128 →
    Nat.testBit 0xFFFF0000FFFF0000 k = decide (k < 64 ∧ k / 16 % 2 = 1) := by decide!
theorem mask64_d : ∀ k, k < 128 →
    Nat.testBit 0x0000FFFF0000FFFF k = decide (k < 64 ∧ k / 16 % 2 = 0) := by decide!

theorem swap64_testBit (x : Nat) (j : Nat) (hj : j < 64) :
    (swap64 x).testBit j = x.testBit (8 * (7 - j / 8) + j % 8) := by
  unfold swap64
  simp only [Nat.testBit_or, Nat.testBit_and, Nat.testBit_mod_two_pow, Nat.testBit_shiftLeft,
    Nat.testBit_shiftRight]
  interval_cases j <;> simp [mask64_a, mask64_b, mask64_c, mask64_d]

theorem swap64_lt (x : Nat) : swap64 x < 2 ^ 64 := by
  unfold swap64
  apply Nat.or_lt_two_pow
  · exact Nat.mod_lt _ (by decide)
  · rw [Nat.shiftRight_eq_div_pow]
    apply lt_of_le_of_lt (Nat.div_le_self _ _)
    apply Nat.or_lt_two_pow
    · exact lt_of_le_of_lt Nat.and_le_right (by decide)
    · exact lt_of_le_of_lt Nat.and_le_right (by decide)

theorem byteOf_swap64 (x i : Nat) (hi : i < 8) : byteOf (swap64 x) i = byteOf x (7 - i) := by
  apply Nat.eq_of_testBit_eq
  intro k
  rw [testBit_byteOf, testBit_byteOf]
  by_cases hk : k < 8
  · rw [swap64_testBit x (8 * i + k) (by omega)]
    have e1 : (8 * i + k) / 8 = i := by omega
    have e2 : (8 * i + k) % 8 = k := by omega
    rw [e1, e2]
  · simp [hk]

theorem swap64_swap64 (x : Nat) (hx : x < 2 ^ 64) : swap64 (swap64 x) = x := by
  apply Nat.eq_of_testBit_eq
  intro k
  by_cases hk : k < 64
  · rw [swap64_testBit _ k hk, swap64_testBit _ _ (by omega)]
    congr 1
    omega
  · have h1 : swap64 (swap64 x) < 2 ^ k :=
      lt_of_lt_of_le (swap64_lt _) (Nat.pow_le_pow_right (by decide) (by omega))
    have h2 : x < 2 ^ k := lt_of_lt_of_le hx (Nat.pow_le_pow_right (by decide) (by omega))
    rw [Nat.testBit_lt_two_pow h1, Nat.testBit_lt_two_pow h2]

/-- C13: `swap32` and `swap64` reverse the byte order: byte `i` of `swap32(x)` is byte
`3 - i` of `x` (`i` in `0..3`, `x` a 32-bit pattern), byte `i` of `swap64(x)` is byte
`7 - i` of `x` (`i` in `0..7`, `x` a 64-bit pattern); the results are 32-bit and 64-bit
patterns, and swapping twice gives `x` back. -/
theorem swaps_reverse_byte_order :
    (∀ x i, x < 2 ^ 32 → i < 4 → byteOf (swap32 x) i = byteOf x (3 - i)) ∧
      (∀ x i, x < 2 ^ 64 → i < 8 → byteOf (swap64 x) i = byteOf x (7 - i)) ∧
      (∀ x, swap32 x < 2 ^ 32) ∧ (∀ x, swap64 x < 2 ^ 64) ∧
      (∀ x, x < 2 ^ 32 → swap32 (swap32 x) = x) ∧
      (∀ x, x < 2 ^ 64 → swap64 (swap64 x) = x) :=
  ⟨fun x i _ hi => byteOf_swap32 x i hi, fun x i _ hi => byteOf_swap64 x i hi, swap32_lt,
    swap64_lt, swap32_swap32, swap64_swap64⟩

theorem swaps_reverse_byte_order_witness :
    byteOf (swap32 0x11223344) 0 = byteOf 0x11223344 (3 - 0) ∧
      byteOf (swap64 0x1122334455667788) 2 = byteOf 0x1122334455667788 (7 - 2) ∧
      swap32 (swap32 0x11223344) = 0x11223344 ∧
      swap64 (swap64 0x1122334455667788) = 0x1122334455667788 :=
  ⟨swaps_reverse_byte_order.1 0x11223344 0 (by decide) (by decide),
    swaps_reverse_byte_order.2.1 0x1122334455667788 2 (by decide) (by decide),
    swaps_reverse_byte_order.2.2.2.2.1 0x11223344 (by decide),
    swaps_reverse_byte_order.2.2.2.2.2 0x1122334455667788 (by decide)⟩

/-- The bytes of the example: `swap32(0x11223344) = 0x44332211`. -/
theorem swap_examples :
    swap32 0x11223344 = 0x44332211 ∧ swap64 0x1122334455667788 = 0x8877665544332211 := by
  decide

/-! ## Theorems: where the header fields are read -/

theorem load_shift (m1 m2 : Nat → Nat) :
    ∀ (size p1 p2 : Nat), (∀ j, j < size → m1 (p1 + j) = m2 (p2 + j)) →
      load m1 p1 size = load m2 p2 size := by
  intro size
  induction size with
  | zero => intro _ _ _; rfl
  | succ size ih =>
    intro p1 p2 hm
    have h0 : m1 p1 = m2 p2 := hm 0 (Nat.succ_pos _)
    rw [load, load, ih (p1 + 1) (p2 + 1), h0]
    intro j hj
    have := hm (j + 1) (by omega)
    rw [show p1 + 1 + j = p1 + (j + 1) by omega, show p2 + 1 + j = p2 + (j + 1) by omega]
    exact this

/-- The word stored in `size` bytes that are the bytes of `w` is `w` cut to `size`
bytes. -/
theorem load_byteOf (mem : Nat → Nat) :
    ∀ (size p w : Nat), (∀ j, j < size → mem (p + j) = byteOf w j) →
      load mem p size = w % 256 ^ size := by
  intro size
  induction size with
  | zero =>
    intro p w _
    simp [load, Nat.mod_one]
  | succ size ih =>
    intro p w hmem
    have h0 : mem p = w % 256 := by
      have := hmem 0 (Nat.succ_pos _)
      simpa [byteOf] using this
    have hrest : ∀ j, j < size → mem (p + 1 + j) = byteOf (w / 256) j := by
      intro j hj
      have := hmem (j + 1) (by omega)
      rw [show p + 1 + j = p + (j + 1) by omega, this, byteOf, byteOf, pow_succ',
        Nat.div_div_eq_div_mul]
    rw [load, ih (p + 1) (w / 256) hrest, h0, pow_succ', Nat.mod_mul]

theorem load_byteOf4 (mem : Nat → Nat) (p w : Nat) (hw : w < 2 ^ 32)
    (hmem : ∀ j, j < 4 → mem (p + j) = byteOf w j) : load mem p 4 = w := by
  rw [load_byteOf mem 4 p w hmem]
  exact Nat.mod_eq_of_lt (by norm_num at hw ⊢; exact hw)

/-- After the loops of `fread_swap`, element `e` of the array holds the swapped
pattern of what it held. -/
theorem load_swapElems32 (mem : Nat → Nat) (ptr count e : Nat) (he : e < count) :
    load (swapElems swap32 mem ptr 4 count) (ptr + 4 * e) 4
      = swap32 (load mem (ptr + 4 * e) 4) := by
  apply load_byteOf4 _ _ _ (swap32_lt _)
  intro j hj
  have hin : ptr ≤ ptr + 4 * e + j ∧ ptr + 4 * e + j < ptr + 4 * count := by omega
  have e1 : ptr + (ptr + 4 * e + j - ptr) / 4 * 4 = ptr + 4 * e := by omega
  have e2 : (ptr + 4 * e + j - ptr) % 4 = j := by omega
  simp only [swapElems, hin, and_self, if_true, e1, e2]

/-- Outside the elements it is given, `fread_swap` leaves memory as it is. -/
theorem swapElems_outside (swap : Nat → Nat) (mem : Nat → Nat) (ptr size count i : Nat)
    (hi : i < ptr ∨ ptr + size * count ≤ i) :
    swapElems swap mem ptr size count i = mem i := by
  have : ¬ (ptr ≤ i ∧ i < ptr + size * count) := by omega
  simp only [swapElems, this, if_false]

theorem fread_outside (mem : Nat → Nat) (ptr size count : Nat) (f : FILE) (i : Nat)
    (hi : i < ptr ∨ ptr + size * count ≤ i) : (fread mem ptr size count f).1 i = mem i := by
  have hle : transferred f (size * count) ≤ size * count := by
    unfold transferred available
    split
    · split <;> omega
    · omega
  have : ¬ (ptr ≤ i ∧ i < ptr + transferred f (size * count)) := by omega
  simp only [fread, this, if_false]

theorem fread_ntoh_outside (swap : Bool) (mem : Nat → Nat) (ptr count : Nat) (f : FILE)
    (i : Nat) (hi : i < ptr ∨ ptr + 4 * count ≤ i) :
    (fread_ntoh swap mem ptr 4 count f).1 i = mem i := by
  cases swap with
  | false =>
    simp only [fread_ntoh, Bool.false_eq_true, if_false]
    exact fread_outside mem ptr 4 count f i hi
  | true =>
    simp only [fread_ntoh, fread_swap, if_true]
    have h84 : ¬ ((4 : Nat) = 8) := by decide
    simp only [h84, if_false]
    rw [swapElems_outside _ _ _ _ _ _ hi]
    exact fread_outside mem ptr 4 count f i hi

/-- A complete read of `count` 32-bit words: the stream advances by `4 * count` bytes
and element `e` of the array at `ptr` is the word at byte `pos + 4 * e` of the file. -/
theorem fread_ntoh_words (swap : Bool) (mem : Nat → Nat) (ptr count : Nat) (f : FILE)
    (hf : Sound f) (hsize : f.pos.toNat + 4 * count ≤ f.size) :
    (fread_ntoh swap mem ptr 4 count f).2.2.pos = f.pos + ((4 * count : Nat) : Int) ∧
      ∀ e, e < count → load (fread_ntoh swap mem ptr 4 count f).1 (ptr + 4 * e) 4
        = word32 swap f.bytes (f.pos.toNat + 4 * e) := by
  have hav : available f (4 * count) = 4 * count := by
    unfold available
    omega
  have htr : transferred f (4 * count) = 4 * count := by
    rw [transferred_eq_available f _ hf.2, hav]
  have hraw : ∀ e, e < count →
      load (fread mem ptr 4 count f).1 (ptr + 4 * e) 4 = load f.bytes (f.pos.toNat + 4 * e) 4 := by
    intro e he
    apply load_shift
    intro j hj
    have hin : ptr ≤ ptr + 4 * e + j ∧ ptr + 4 * e + j < ptr + 4 * count := by omega
    have e1 : f.pos.toNat + (ptr + 4 * e + j - ptr) = f.pos.toNat + 4 * e + j := by omega
    simp only [fread, htr, hin, and_self, if_true, e1]
  refine ⟨?_, fun e he => ?_⟩
  · rw [fread_ntoh_file]
    simp [fread, htr]
  · cases swap with
    | false =>
      simp only [fread_ntoh, Bool.false_eq_true, if_false, word32]
      exact hraw e he
    | true =>
      have h84 : ¬ ((4 : Nat) = 8) := by decide
      simp only [fread_ntoh, fread_swap, if_true, h84, if_false, word32]
      rw [load_swapElems32 _ _ _ _ he, hraw e he]

theorem load_outside (m1 m2 : Nat → Nat) (p size : Nat)
    (h : ∀ i, p ≤ i → i < p + size → m1 i = m2 i) : load m1 p size = load m2 p size :=
  load_congr m1 m2 size p (fun j hj => h (p + j) (by omega) (by omega))

/-- The three reads into `table` (lines 203-208), each complete: the entries of the
table are the words of the file at the positions of the three reads. -/
theorem table_words (swap : Bool) (mem : Nat → Nat) (f1 f2 f3 : FILE)
    (hf1 : Sound f1) (hf2 : Sound f2) (hf3 : Sound f3)
    (h1 : f1.pos.toNat + 4 * 36 ≤ f1.size) (h2 : f2.pos.toNat + 4 * 3 ≤ f2.size) :
    (∀ i j, i < 12 → j < 3 →
        tableAt (fread_ntoh swap (fread_ntoh swap (fread_ntoh swap mem 0 4 (12 * 3) f1).1
            144 4 3 f2).1 156 4 (2 * 3) f3).1 i j
          = toInt32 (word32 swap f1.bytes (f1.pos.toNat + 4 * (3 * i + j)))) ∧
      (∀ j, j < 3 →
        tableAt (fread_ntoh swap (fread_ntoh swap (fread_ntoh swap mem 0 4 (12 * 3) f1).1
            144 4 3 f2).1 156 4 (2 * 3) f3).1 12 j
          = toInt32 (word32 swap f2.bytes (f2.pos.toNat + 4 * j))) ∧
      (f3.pos.toNat + 4 * 6 ≤ f3.size → ∀ i j, i < 2 → j < 3 →
        tableAt (fread_ntoh swap (fread_ntoh swap (fread_ntoh swap mem 0 4 (12 * 3) f1).1
            144 4 3 f2).1 156 4 (2 * 3) f3).1 (13 + i) j
          = toInt32 (word32 swap f3.bytes (f3.pos.toNat + 4 * (3 * i + j)))) := by
  refine ⟨fun i j hi hj => ?_, fun j hj => ?_, fun h3 i j hi hj => ?_⟩
  · rw [tableAt, elem]
    rw [load_outside _ (fread_ntoh swap (fread_ntoh swap mem 0 4 (12 * 3) f1).1 144 4 3 f2).1
      _ _ (fun k hk1 hk2 => fread_ntoh_outside swap _ 156 (2 * 3) f3 k (by omega))]
    rw [load_outside _ (fread_ntoh swap mem 0 4 (12 * 3) f1).1
      _ _ (fun k hk1 hk2 => fread_ntoh_outside swap _ 144 3 f2 k (by omega))]
    have := (fread_ntoh_words swap mem 0 (12 * 3) f1 hf1 h1).2 (3 * i + j) (by omega)
    rw [show (3 * i + j) * 4 = 0 + 4 * (3 * i + j) by omega, this]
  · rw [tableAt, elem]
    rw [load_outside _ (fread_ntoh swap (fread_ntoh swap mem 0 4 (12 * 3) f1).1 144 4 3 f2).1
      _ _ (fun k hk1 hk2 => fread_ntoh_outside swap _ 156 (2 * 3) f3 k (by omega))]
    have := (fread_ntoh_words swap (fread_ntoh swap mem 0 4 (12 * 3) f1).1 144 3 f2 hf2 h2).2
      j hj
    rw [show (3 * 12 + j) * 4 = 144 + 4 * j by omega, this]
  · rw [tableAt, elem]
    have := (fread_ntoh_words swap
      (fread_ntoh swap (fread_ntoh swap mem 0 4 (12 * 3) f1).1 144 4 3 f2).1 156 (2 * 3) f3
      hf3 h3).2 (3 * i + j) (by omega)
    rw [show (3 * (13 + i) + j) * 4 = 156 + 4 * (3 * i + j) by omega, this]

/-- The stream after a complete read. -/
theorem fread_ntoh_fields (swap : Bool) (mem : Nat → Nat) (ptr size count : Nat) (f : FILE)
    (hf : Sound f) (hsize : f.pos.toNat + size * count ≤ f.size) :
    (fread_ntoh swap mem ptr size count f).2.2.pos = f.pos + ((size * count : Nat) : Int) ∧
      (fread_ntoh swap mem ptr size count f).2.2.bytes = f.bytes ∧
      (fread_ntoh swap mem ptr size count f).2.2.size = f.size ∧
      Sound (fread_ntoh swap mem ptr size count f).2.2 := by
  have hav : available f (size * count) = size * count := by
    unfold available
    omega
  have htr : transferred f (size * count) = size * count := by
    rw [transferred_eq_available f _ hf.2, hav]
  refine ⟨?_, ?_, ?_, sound_fread_ntoh swap mem ptr size count f hf⟩
  · rw [fread_ntoh_file]
    simp [fread, htr]
  · rw [fread_ntoh_file]
    rfl
  · rw [fread_ntoh_file]
    rfl

theorem fseek_set_fields (f : FILE) (offset : Int) (h0 : 0 ≤ offset) :
    (fseek_set f offset).pos = offset ∧ (fseek_set f offset).bytes = f.bytes ∧
      (fseek_set f offset).size = f.size ∧
      (fseek_set f offset).log = f.log ++ [IOEvent.seekSet offset] := by
  have : ¬ (offset < 0) := by omega
  simp [fseek_set, this]

/-- The stream after line 191, for a file that holds the time doubles. -/
theorem readTime_fields (h : Host) (file : FILE) (hf : Sound file) (hsize : 0xA74 ≤ file.size) :
    (readTime h (readDenum h file).2 (readDenum h file).1).2.pos = 0xA74 ∧
      (readTime h (readDenum h file).2 (readDenum h file).1).2.bytes = file.bytes ∧
      (readTime h (readDenum h file).2 (readDenum h file).1).2.size = file.size ∧
      Sound (readTime h (readDenum h file).2 (readDenum h file).1).2 ∧
      (readTime h (readDenum h file).2 (readDenum h file).1).2.log
        = file.log ++ headerCalls := by
  have hd := sound_readDenum h file hf
  have hdb : (readDenum h file).1.bytes = file.bytes := rfl
  have hds : (readDenum h file).1.size = file.size := rfl
  obtain ⟨s1, s2, s3, _⟩ := fseek_set_fields (readDenum h file).1 DE_OFFSET_TIME (by decide)
  have hsz : (fseek_set (readDenum h file).1 DE_OFFSET_TIME).pos.toNat + 8 * 3
      ≤ (fseek_set (readDenum h file).1 DE_OFFSET_TIME).size := by
    rw [s1, s3, hds]
    have : DE_OFFSET_TIME.toNat = 0xA5C := by decide
    omega
  obtain ⟨r1, r2, r3, r4⟩ := fread_ntoh_fields (readDenum h file).2 h.file_time0 0 8 3
    (fseek_set (readDenum h file).1 DE_OFFSET_TIME) (sound_fseek_set _ _ hd) hsz
  refine ⟨?_, ?_, ?_, r4, ?_⟩
  · show (fread_ntoh (readDenum h file).2 h.file_time0 0 8 3
      (fseek_set (readDenum h file).1 DE_OFFSET_TIME)).2.2.pos = _
    rw [r1, s1]
    decide
  · show (fread_ntoh (readDenum h file).2 h.file_time0 0 8 3
      (fseek_set (readDenum h file).1 DE_OFFSET_TIME)).2.2.bytes = _
    rw [r2, s2, hdb]
  · show (fread_ntoh (readDenum h file).2 h.file_time0 0 8 3
      (fseek_set (readDenum h file).1 DE_OFFSET_TIME)).2.2.size = _
    rw [r3, s3, hds]
  · rw [readTime_log, readDenum_log, List.append_assoc]
    rfl

theorem fseek_cur_fields (f : FILE) (offset : Int) (h0 : 0 ≤ f.pos + offset) :
    (fseek_cur f offset).pos = f.pos + offset ∧ (fseek_cur f offset).bytes = f.bytes ∧
      (fseek_cur f offset).size = f.size ∧
      (fseek_cur f offset).log = f.log ++ [IOEvent.seekCur offset] := by
  have : ¬ (f.pos + offset < 0) := by omega
  simp [fseek_cur, this]

/-- Lines 198-208 on a stream that stands behind the time doubles, in a file that holds
the header up to descriptor 12, for an `nconst` whose distance `(nconst - 400) * 6`
fits an `int`: what is read, and where. -/
theorem readTables_spec (h : Host) (swap : Bool) (f : FILE) (hf : Sound f)
    (hpos : f.pos = 0xA74) (hsize : 0xB28 ≤ f.size)
    (hn : (readTables h swap f).1 ≤ 357914341) :
    (readTables h swap f).1 = toInt32 (word32 swap f.bytes 0xA74) ∧
      (readTables h swap f).2.2.log
        = f.log ++ [.read 0xA74 4 1, .seekSet 0xA88, .read 0xA88 4 36, .seekSet 0xB1C,
            .read 0xB1C 4 3]
          ++ (if (readTables h swap f).1 > 400
              then [IOEvent.seekCur (((readTables h swap f).1 - 400) * 6)] else [])
          ++ [.read (if (readTables h swap f).1 > 400
              then 0xB28 + ((readTables h swap f).1 - 400) * 6 else 0xB28) 4 6] ∧
      (∀ i j, i < 12 → j < 3 → tableAt (readTables h swap f).2.1 i j
        = toInt32 (word32 swap f.bytes (0xA88 + 4 * (3 * i + j)))) ∧
      (∀ j, j < 3 → tableAt (readTables h swap f).2.1 12 j
        = toInt32 (word32 swap f.bytes (0xB1C + 4 * j))) ∧
      ((if (readTables h swap f).1 > 400
            then 0xB28 + ((readTables h swap f).1 - 400) * 6 else 0xB28) + 24 ≤ f.size →
        ∀ i j, i < 2 → j < 3 → tableAt (readTables h swap f).2.1 (13 + i) j
          = toInt32 (word32 swap f.bytes
              ((if (readTables h swap f).1 > 400
                then 0xB28 + ((readTables h swap f).1 - 400) * 6 else 0xB28).toNat
                + 4 * (3 * i + j)))) := by
  have hp0 : f.pos.toNat = 0xA74 := by rw [hpos]; rfl
  unfold readTables at hn ⊢
  simp only [DE_MAX_NCONST, DE_CNAME_LENGTH] at hn ⊢
  -- the read of `nconst`
  obtain ⟨_, rn2, rn3, rn4⟩ := fread_ntoh_fields swap h.nconst0 0 4 1 f hf (by omega)
  have hnw := (fread_ntoh_words swap h.nconst0 0 1 f hf (by omega)).2 0 (by decide)
  rw [hp0] at hnw
  simp only [Nat.mul_zero, Nat.add_zero] at hnw
  have hnl := fread_ntoh_log swap h.nconst0 0 4 1 f
  rw [hpos] at hnl
  generalize fread_ntoh swap h.nconst0 0 4 1 f = rn at *
  rw [hnw] at hn ⊢
  generalize toInt32 (word32 swap f.bytes 0xA74) = nconst at *
  -- descriptors 0-11
  obtain ⟨a1, a2, a3, a4⟩ := fseek_set_fields rn.2.2 DE_OFFSET_TABLE1 (by decide)
  have a5 : Sound (fseek_set rn.2.2 DE_OFFSET_TABLE1) := sound_fseek_set _ _ rn4
  have ha0 : (fseek_set rn.2.2 DE_OFFSET_TABLE1).pos.toNat = 0xA88 := by rw [a1]; rfl
  rw [rn2] at a2
  rw [rn3] at a3
  rw [hnl] at a4
  generalize fseek_set rn.2.2 DE_OFFSET_TABLE1 = fa at *
  obtain ⟨_, b2, b3, b4⟩ := fread_ntoh_fields swap h.table0 0 4 (12 * 3) fa a5 (by omega)
  have hbl := fread_ntoh_log swap h.table0 0 4 (12 * 3) fa
  rw [a1, a4] at hbl
  -- descriptor 12
  obtain ⟨c1, c2, c3, c4⟩ :=
    fseek_set_fields (fread_ntoh swap h.table0 0 4 (12 * 3) fa).2.2 DE_OFFSET_TABLE2 (by decide)
  have c5 : Sound (fseek_set (fread_ntoh swap h.table0 0 4 (12 * 3) fa).2.2 DE_OFFSET_TABLE2) :=
    sound_fseek_set _ _ b4
  have hc0 : (fseek_set (fread_ntoh swap h.table0 0 4 (12 * 3) fa).2.2
      DE_OFFSET_TABLE2).pos.toNat = 0xB1C := by rw [c1]; rfl
  rw [b2, a2] at c2
  rw [b3, a3] at c3
  rw [hbl] at c4
  generalize fseek_set (fread_ntoh swap h.table0 0 4 (12 * 3) fa).2.2 DE_OFFSET_TABLE2 = fb at *
  obtain ⟨d1, d2, d3, d4⟩ := fread_ntoh_fields swap
    (fread_ntoh swap h.table0 0 4 (12 * 3) fa).1 144 4 3 fb c5 (by omega)
  have hdl := fread_ntoh_log swap (fread_ntoh swap h.table0 0 4 (12 * 3) fa).1 144 4 3 fb
  rw [c1, c4] at hdl
  rw [c1] at d1
  rw [c2] at d2
  rw [c3] at d3
  have hd1 : (fread_ntoh swap (fread_ntoh swap h.table0 0 4 (12 * 3) fa).1 144 4 3 fb).2.2.pos
      = 0xB28 := by
    rw [d1]
    decide
  -- descriptors 13-14
  by_cases hgt : nconst > 400
  · have hw : wrap32 ((nconst - 400) * 6) = (nconst - 400) * 6 :=
      wrap32_of_fits _ (by unfold fitsInt32; omega)
    simp only [hgt, if_true, hw]
    obtain ⟨e1, e2, e3, e4⟩ := fseek_cur_fields
      (fread_ntoh swap (fread_ntoh swap h.table0 0 4 (12 * 3) fa).1 144 4 3 fb).2.2
      ((nconst - 400) * 6) (by rw [hd1]; omega)
    have e5 : Sound (fseek_cur
        (fread_ntoh swap (fread_ntoh swap h.table0 0 4 (12 * 3) fa).1 144 4 3 fb).2.2
        ((nconst - 400) * 6)) := sound_fseek_cur _ _ d4
    rw [hd1] at e1
    rw [d2] at e2
    rw [d3] at e3
    rw [hdl] at e4
    generalize fseek_cur
      (fread_ntoh swap (fread_ntoh swap h.table0 0 4 (12 * 3) fa).1 144 4 3 fb).2.2
      ((nconst - 400) * 6) = fc at *
    obtain ⟨t1, t2, t3⟩ := table_words swap h.table0 fa fb fc a5 c5 e5 (by omega) (by omega)
    refine ⟨trivial, ?_, ?_, ?_, ?_⟩
    · rw [fread_ntoh_log, e4, e1]
      simp [DE_OFFSET_TABLE1, DE_OFFSET_TABLE2]
    · intro i j hi hj
      rw [t1 i j hi hj, ha0, a2]
    · intro j hj
      rw [t2 j hj, hc0, c2]
    · intro hfit i j hi hj
      rw [t3 (by rw [e1, e3]; omega) i j hi hj, e1, e2]
  · simp only [hgt, if_false]
    obtain ⟨t1, t2, t3⟩ := table_words swap h.table0 fa fb
      (fread_ntoh swap (fread_ntoh swap h.table0 0 4 (12 * 3) fa).1 144 4 3 fb).2.2
      a5 c5 d4 (by omega) (by omega)
    refine ⟨trivial, ?_, ?_, ?_, ?_⟩
    · rw [fread_ntoh_log, hdl, hd1]
      simp [DE_OFFSET_TABLE1, DE_OFFSET_TABLE2]
    · intro i j hi hj
      rw [t1 i j hi hj, ha0, a2]
    · intro j hj
      rw [t2 j hj, hc0, c2]
    · intro hfit i j hi hj
      rw [t3 (by rw [hd1, d3]; omega) i j hi hj, hd1, d2]

theorem load_byteOf8 (mem : Nat → Nat) (p w : Nat) (hw : w < 2 ^ 64)
    (hmem : ∀ j, j < 8 → mem (p + j) = byteOf w j) : load mem p 8 = w := by
  rw [load_byteOf mem 8 p w hmem]
  exact Nat.mod_eq_of_lt (by norm_num at hw ⊢; exact hw)

theorem load_swapElems64 (mem : Nat → Nat) (ptr count e : Nat) (he : e < count) :
    load (swapElems swap64 mem ptr 8 count) (ptr + 8 * e) 8
      = swap64 (load mem (ptr + 8 * e) 8) := by
  apply load_byteOf8 _ _ _ (swap64_lt _)
  intro j hj
  have hin : ptr ≤ ptr + 8 * e + j ∧ ptr + 8 * e + j < ptr + 8 * count := by omega
  have e1 : ptr + (ptr + 8 * e + j - ptr) / 8 * 8 = ptr + 8 * e := by omega
  have e2 : (ptr + 8 * e + j - ptr) % 8 = j := by omega
  simp only [swapElems, hin, and_self, if_true, e1, e2]

/-- A complete read of `count` doubles: element `e` of the array at `ptr` is the
64-bit word at byte `pos + 8 * e` of the file. -/
theorem fread_ntoh_doubles (swap : Bool) (mem : Nat → Nat) (ptr count : Nat) (f : FILE)
    (hf : Sound f) (hsize : f.pos.toNat + 8 * count ≤ f.size) :
    ∀ e, e < count → load (fread_ntoh swap mem ptr 8 count f).1 (ptr + 8 * e) 8
      = word64 swap f.bytes (f.pos.toNat + 8 * e) := by
  have hav : available f (8 * count) = 8 * count := by
    unfold available
    omega
  have htr : transferred f (8 * count) = 8 * count := by
    rw [transferred_eq_available f _ hf.2, hav]
  have hraw : ∀ e, e < count →
      load (fread mem ptr 8 count f).1 (ptr + 8 * e) 8 = load f.bytes (f.pos.toNat + 8 * e) 8 := by
    intro e he
    apply load_shift
    intro j hj
    have hin : ptr ≤ ptr + 8 * e + j ∧ ptr + 8 * e + j < ptr + 8 * count := by omega
    have e1 : f.pos.toNat + (ptr + 8 * e + j - ptr) = f.pos.toNat + 8 * e + j := by omega
    simp only [fread, htr, hin, and_self, if_true, e1]
  intro e he
  cases swap with
  | false =>
    simp only [fread_ntoh, Bool.false_eq_true, if_false, word64]
    exact hraw e he
  | true =>
    simp only [fread_ntoh, fread_swap, if_true, word64]
    rw [load_swapElems64 _ _ _ _ he, hraw e he]

/-- The time doubles of line 191 are the three doubles at byte `0xA5C` of the file. -/
theorem fileTime_eq (h : Host) (file : FILE) (hf : Sound file) (hsize : 0xA74 ≤ file.size)
    (i : Nat) (hi : i < 3) :
    fileTime h file i = h.dbl (word64 (readDenum h file).2 file.bytes (0xA5C + 8 * i)) := by
  have hd := sound_readDenum h file hf
  obtain ⟨s1, s2, s3, _⟩ := fseek_set_fields (readDenum h file).1 DE_OFFSET_TIME (by decide)
  have hp : (fseek_set (readDenum h file).1 DE_OFFSET_TIME).pos.toNat = 0xA5C := by
    rw [s1]
    rfl
  have hds : (readDenum h file).1.size = file.size := rfl
  have hdb : (readDenum h file).1.bytes = file.bytes := rfl
  have := fread_ntoh_doubles (readDenum h file).2 h.file_time0 0 3
    (fseek_set (readDenum h file).1 DE_OFFSET_TIME) (sound_fseek_set _ _ hd)
    (by rw [hp, s3, hds]; omega) i hi
  rw [hp, s2, hdb] at this
  rw [fileTime, elem, readTime]
  simp only
  rw [show i * 8 = 0 + 8 * i by omega, this]

/-- C14, amended: in a file that holds the header up to descriptor 12 (`0xB28` bytes),
read without error, with `nconst ≤ 357914341` (so that `(nconst - 400) * 6` fits the
`int` line 207 computes it in): the three time doubles are read at byte `0xA5C` and
`nconst` right behind them, at `0xA74`; descriptors 0-11 are the 32-bit integers from
`0xA88` on, descriptor 12 those from `0xB1C` on, and descriptors 13-14 are read at
`0xB28` when `nconst ≤ 400` and at `0xB28 + (nconst - 400) * 6` when `nconst > 400`,
and are the six 32-bit integers found there when the file reaches that far. Words are
byte-swapped when the DE number asks for it. -/
theorem header_field_offsets (h : Host) (file : FILE) (hf : Sound file)
    (hsize : 0xB28 ≤ file.size) (hn : fileNconst h file ≤ 357914341) :
    (∀ i, i < 3 → fileTime h file i
        = h.dbl (word64 (readDenum h file).2 file.bytes (0xA5C + 8 * i))) ∧
      fileNconst h file = toInt32 (word32 (readDenum h file).2 file.bytes 0xA74) ∧
      (headerStream h file).log
        = file.log ++ [.seekSet 0xB18, .read 0xB18 4 1, .seekSet 0xA5C, .read 0xA5C 8 3,
            .read 0xA74 4 1, .seekSet 0xA88, .read 0xA88 4 36, .seekSet 0xB1C,
            .read 0xB1C 4 3]
          ++ (if fileNconst h file > 400
              then [IOEvent.seekCur ((fileNconst h file - 400) * 6)] else [])
          ++ [.read (if fileNconst h file > 400
              then 0xB28 + (fileNconst h file - 400) * 6 else 0xB28) 4 6] ∧
      (∀ i j, i < 12 → j < 3 → tableAt (fileTable h file) i j
        = toInt32 (word32 (readDenum h file).2 file.bytes (0xA88 + 4 * (3 * i + j)))) ∧
      (∀ j, j < 3 → tableAt (fileTable h file) 12 j
        = toInt32 (word32 (readDenum h file).2 file.bytes (0xB1C + 4 * j))) ∧
      ((if fileNconst h file > 400
            then 0xB28 + (fileNconst h file - 400) * 6 else 0xB28) + 24 ≤ file.size →
        ∀ i j, i < 2 → j < 3 → tableAt (fileTable h file) (13 + i) j
          = toInt32 (word32 (readDenum h file).2 file.bytes
              ((if fileNconst h file > 400
                then 0xB28 + (fileNconst h file - 400) * 6 else 0xB28).toNat
                + 4 * (3 * i + j)))) := by
  obtain ⟨p1, p2, p3, p4, p5⟩ := readTime_fields h file hf (by omega)
  obtain ⟨q1, q2, q3, q4, q5⟩ := readTables_spec h (readDenum h file).2
    (readTime h (readDenum h file).2 (readDenum h file).1).2 p4 p1 (by rw [p3]; exact hsize) hn
  rw [p2] at q1 q3 q4 q5
  rw [p3] at q5
  rw [p5] at q2
  refine ⟨fun i hi => fileTime_eq h file hf (by omega) i hi, q1, ?_, q3, q4, q5⟩
  rw [headerStream, q2]
  simp [headerCalls, fileNconst, DE_OFFSET_DENUM, DE_OFFSET_TIME]

theorem header_field_offsets_witness :
    Sound exFileNames ∧ 0xB28 ≤ exFileNames.size ∧ fileNconst host64 exFileNames ≤ 357914341 ∧
    (∀ i, i < 3 → fileTime host64 exFileNames i
        = host64.dbl (word64 (readDenum host64 exFileNames).2 exFileNames.bytes
            (0xA5C + 8 * i))) ∧
      fileNconst host64 exFileNames
        = toInt32 (word32 (readDenum host64 exFileNames).2 exFileNames.bytes 0xA74) ∧
      (headerStream host64 exFileNames).log
        = exFileNames.log ++ [.seekSet 0xB18, .read 0xB18 4 1, .seekSet 0xA5C,
            .read 0xA5C 8 3, .read 0xA74 4 1, .seekSet 0xA88, .read 0xA88 4 36,
            .seekSet 0xB1C, .read 0xB1C 4 3]
          ++ (if fileNconst host64 exFileNames > 400
              then [IOEvent.seekCur ((fileNconst host64 exFileNames - 400) * 6)] else [])
          ++ [.read (if fileNconst host64 exFileNames > 400
              then 0xB28 + (fileNconst host64 exFileNames - 400) * 6 else 0xB28) 4 6] ∧
      (∀ i j, i < 12 → j < 3 → tableAt (fileTable host64 exFileNames) i j
        = toInt32 (word32 (readDenum host64 exFileNames).2 exFileNames.bytes
            (0xA88 + 4 * (3 * i + j)))) ∧
      (∀ j, j < 3 → tableAt (fileTable host64 exFileNames) 12 j
        = toInt32 (word32 (readDenum host64 exFileNames).2 exFileNames.bytes
            (0xB1C + 4 * j))) ∧
      ((if fileNconst host64 exFileNames > 400
            then 0xB28 + (fileNconst host64 exFileNames - 400) * 6 else 0xB28) + 24
          ≤ exFileNames.size →
        ∀ i j, i < 2 → j < 3 → tableAt (fileTable host64 exFileNames) (13 + i) j
          = toInt32 (word32 (readDenum host64 exFileNames).2 exFileNames.bytes
              ((if fileNconst host64 exFileNames > 400
                then 0xB28 + (fileNconst host64 exFileNames - 400) * 6 else 0xB28).toNat
                + 4 * (3 * i + j)))) :=
  ⟨⟨rfl, rfl⟩, by decide, by decide!,
    header_field_offsets host64 exFileNames ⟨rfl, rfl⟩ (by decide) (by decide!)⟩

/-- The header of the example file with `nconst = 402` as a run reads it: descriptors
13-14 are read at `0xB28 + 2 * 6 = 0xB34`. -/
theorem exFileNames_header :
    fileNconst host64 exFileNames = 402 ∧
      (headerStream host64 exFileNames).log
        = [.seekSet 0xB18, .read 0xB18 4 1, .seekSet 0xA5C, .read 0xA5C 8 3, .read 0xA74 4 1,
           .seekSet 0xA88, .read 0xA88 4 36, .seekSet 0xB1C, .read 0xB1C 4 3, .seekCur 12,
           .read 0xB34 4 6] ∧
      tableAt (fileTable host64 exFileNames) 13 0 = 350 ∧
      tableAt (fileTable host64 exFileNames) 13 1 = 1 ∧
      tableAt (fileTable host64 exFileNames) 13 2 = 1 ∧
      tableAt (fileTable host64 exFileNames) 0 0 = 352 :=
  ⟨by decide!, by decide!, by decide!, by decide!, by decide!, by decide!⟩

/-- C14 as stated fails: in the example file with `nconst = 715828283` the distance
`(nconst - 400) * 6 = 4294967298` does not fit the `int` line 207 computes it in; the
call of `fseek` gets 2, and descriptors 13-14 are read at byte `0xB2A`, where the file
holds `(350, 1, 1)`, not at byte `0xB28 + 4294967298 = 4294970154`. -/
theorem names_skip_overflows :
    Sound exFileHuge ∧ 0xB28 ≤ exFileHuge.size ∧
      fileNconst host64 exFileHuge = 715828283 ∧
      (0xB28 : Int) + (715828283 - 400) * 6 = 4294970154 ∧
      (headerStream host64 exFileHuge).log
        = [.seekSet 0xB18, .read 0xB18 4 1, .seekSet 0xA5C, .read 0xA5C 8 3, .read 0xA74 4 1,
           .seekSet 0xA88, .read 0xA88 4 36, .seekSet 0xB1C, .read 0xB1C 4 3, .seekCur 2,
           .read 0xB2A 4 6] ∧
      tableAt (fileTable host64 exFileHuge) 13 0 = 350 ∧
      tableAt (fileTable host64 exFileHuge) 13 1 = 1 ∧
      tableAt (fileTable host64 exFileHuge) 13 2 = 1 ∧
      toInt32 (word32 (readDenum host64 exFileHuge).2 exFileHuge.bytes 0xB2A) = 350 ∧
      toInt32 (word32 (readDenum host64 exFileHuge).2 exFileHuge.bytes 4294970154) = 0 :=
  ⟨⟨rfl, rfl⟩, by decide, by decide!, by decide, by decide!, by decide!, by decide!,
    by decide!, by decide!, by decide!⟩

/-! ## Theorems: a single coefficient per component -/

section SingleCoefficient

variable {R : Type} [CommRing R]

/-- With a negative counter the loop of `chebyshev` never meets `n == 0`: it reads on
until it leaves the object. -/
theorem chebyshevLoop_negative (x : R) (rest : List R) :
    ∀ (n : Int) (y n2 n1 : R), n < 0 → chebyshevLoop x n rest y n2 n1 = none := by
  induction rest with
  | nil =>
    intro n y n2 n1 hn
    have : n ≠ 0 := by omega
    simp [chebyshevLoop, this]
  | cons c rest ih =>
    intro n y n2 n1 hn
    have : n ≠ 0 := by omega
    rw [chebyshevLoop, if_neg this]
    exact ih (n - 1) _ _ _ (by omega)

/-- C15, the code for `n = 1`: whatever the array and `x`, `chebyshev(a, 1, x)` does
not return `a[0]`. Line 88 reads `a[1]` before `n` is looked at, and the loop starts
with `n - 2 = -1`, which `--n` never brings to 0, so it reads past every object; there
is no defined result. (`chebyshev_derivative`, whose loop tests `i < n`, returns 0 for
`n = 1` without a read.) -/
theorem chebyshev_single_coefficient (a : List R) (x : R) :
    chebyshev a 1 x = none ∧ chebyshev_derivative a 1 x = some 0 := by
  constructor
  · match a with
    | [] => rfl
    | [_] => rfl
    | a0 :: a1 :: rest =>
      exact chebyshevLoop_negative (x * 2) rest (1 - 2) _ _ _ (by decide)
  · cases a with
    | nil => simp [chebyshev_derivative, chebyshevDerivativeLoop]
    | cons c a =>
      cases a with
      | nil => simp [chebyshev_derivative, chebyshevDerivativeLoop]
      | cons c' a => simp [chebyshev_derivative, chebyshevDerivativeLoop]

end SingleCoefficient

/-- A run on the example file with one coefficient per component for item 0: the
header is read, the record is read, and the sample has no defined value. -/
theorem exFileOne_run :
    Sound exFileOne ∧ tableAt (fileTable host64 exFileOne) 0 0 = 358 ∧
      tableAt (fileTable host64 exFileOne) 0 1 = 1 ∧
      tableAt (fileTable host64 exFileOne) 0 2 = 1 ∧
      recNcoeff (fileTable host64 exFileOne) = 360 ∧
      (main host64 exFileOne ⟨0, 4880821 / 2, none⟩).file.log.getLast?
        = some (.read 5760 8 360) ∧
      (main host64 exFileOne ⟨0, 4880821 / 2, none⟩).exit = .undefined ∧
      (main host64 exFileOne ⟨0, 4880821 / 2, none⟩).rows = [] :=
  ⟨⟨rfl, rfl⟩, by decide!, by decide!, by decide!, by decide!, by decide!, by decide!,
    by decide!⟩

/-! ## Theorems: the distance of each seek -/

/-- Lines 256-265 for `k ≥ 0` records: `k / max_rec_skip` seeks of `max_rec_skip_size`
bytes, then one of `rec_size * (k % max_rec_skip)` bytes unless that is zero. -/
theorem skipRecords_distances (S m : Int) (hS : 0 < S) (hm : 0 < m) (k : Int) (hk : 0 ≤ k)
    (f : FILE) :
    ∃ (q : Nat) (f' : FILE),
      skipRecords S m (S * m) k f = some f' ∧ (q : Int) = k / m ∧
      f'.log = f.log ++ (List.replicate q (S * m)
        ++ (if k % m ≠ 0 then [S * (k % m)] else [])).map IOEvent.seekCur := by
  have hmsz : 0 ≤ S * m := Int.mul_nonneg (by omega) (by omega)
  obtain ⟨q, f1, hrun, hlt, hnn, _, hlog, _⟩ :=
    skipLoop_eq m (S * m) hm hmsz (k.toNat + 1) k f (Nat.lt_succ_self _)
  have hr0 := hnn hk
  have hkq : k = (k - q * m) + q * m := by ring
  have hdiv : k / m = q := by
    rw [hkq, Int.add_mul_ediv_right _ _ (by omega), Int.ediv_eq_zero_of_lt hr0 hlt]
    simp
  have hmod : k % m = k - q * m := by
    nth_rewrite 1 [hkq]
    rw [Int.add_mul_emod_self, Int.emod_eq_of_lt hr0 hlt]
  by_cases hr : k - q * m ≠ 0
  · refine ⟨q, fseek_cur f1 (S * (k - q * m)), ?_, hdiv.symm, ?_⟩
    · rw [skipRecords, hrun]
      simp only [hr, if_true, ne_eq, not_false_eq_true]
    · rw [hmod]
      simp [fseek_cur, hlog, hr]
  · refine ⟨q, f1, ?_, hdiv.symm, ?_⟩
    · rw [skipRecords, hrun]
      simp only [hr, if_false]
    · rw [hmod]
      simp [hlog, hr]

/-- C16: for every record size `S` with `0 < S ≤ LONG_MAX` and every number `k ≥ 0` of
records to skip, the loop of lines 257-261 ends (after `k / max_rec_skip` passes) and
every distance handed to a relative seek, `max_rec_skip_size = S * (LONG_MAX / S)` in
the loop and `S * rec_skip` after it, is a multiple of `S` between 0 and `LONG_MAX`:
no product overflows a `long`. -/
theorem skip_distances_in_range (LONG_MAX S k : Int) (f : FILE) (hS : 0 < S)
    (hmax : S ≤ LONG_MAX) (hk : 0 ≤ k) :
    ∃ (q : Nat) (f' : FILE),
      skipRecords S (LONG_MAX / S) (S * (LONG_MAX / S)) k f = some f' ∧
      (q : Int) = k / (LONG_MAX / S) ∧
      f'.log = f.log ++ (List.replicate q (S * (LONG_MAX / S))
        ++ (if k % (LONG_MAX / S) ≠ 0 then [S * (k % (LONG_MAX / S))] else [])).map
          IOEvent.seekCur ∧
      ∀ d ∈ seekDistances f'.log, d ∈ seekDistances f.log ∨
        (∃ c : Int, d = S * c) ∧ 0 ≤ d ∧ d ≤ LONG_MAX := by
  have hm := max_rec_skip_pos LONG_MAX S hS hmax
  obtain ⟨q, f', hrun, hq, hlog⟩ := skipRecords_distances S (LONG_MAX / S) hS hm k hk f
  have hsz : S * (LONG_MAX / S) ≤ LONG_MAX := Int.mul_ediv_self_le (by omega)
  refine ⟨q, f', hrun, hq, hlog, ?_⟩
  intro d hd
  rw [hlog, seekDistances_append, seekDistances_map_seekCur, List.mem_append,
    List.mem_append] at hd
  rcases hd with hd | hd | hd
  · exact Or.inl hd
  · right
    have := List.eq_of_mem_replicate hd
    rw [this]
    exact ⟨⟨_, rfl⟩, Int.mul_nonneg (by omega) (by omega), hsz⟩
  · right
    by_cases hr : k % (LONG_MAX / S) ≠ 0
    · rw [if_pos hr, List.mem_singleton] at hd
      rw [hd]
      have h0 : 0 ≤ k % (LONG_MAX / S) := Int.emod_nonneg _ (by omega)
      have h1 : k % (LONG_MAX / S) < LONG_MAX / S := Int.emod_lt_of_pos _ hm
      refine ⟨⟨_, rfl⟩, Int.mul_nonneg (by omega) h0, ?_⟩
      have : S * (k % (LONG_MAX / S)) ≤ S * (LONG_MAX / S) :=
        Int.mul_le_mul_of_nonneg_left (by omega) (by omega)
      omega
    · rw [if_neg hr] at hd
      exact absurd hd (List.not_mem_nil d)

theorem skip_distances_in_range_witness :
    ∃ (q : Nat) (f' : FILE),
      skipRecords 2880 ((2 ^ 31 - 1) / 2880) (2880 * ((2 ^ 31 - 1) / 2880)) 2000000 exFile
        = some f' ∧
      (q : Int) = 2000000 / ((2 ^ 31 - 1) / 2880) ∧
      f'.log = exFile.log ++ (List.replicate q ((2880 : Int) * ((2 ^ 31 - 1) / 2880))
        ++ (if (2000000 : Int) % ((2 ^ 31 - 1) / 2880) ≠ 0
            then [(2880 : Int) * (2000000 % ((2 ^ 31 - 1) / 2880))] else [])).map
          IOEvent.seekCur ∧
      ∀ d ∈ seekDistances f'.log, d ∈ seekDistances exFile.log ∨
        (∃ c : Int, d = 2880 * c) ∧ 0 ≤ d ∧ d ≤ 2 ^ 31 - 1 :=
  skip_distances_in_range (2 ^ 31 - 1) 2880 2000000 exFile (by decide) (by decide) (by decide)

/-! ## Theorems: every sample lies in the time span of the file -/

/-- A time point of the loop lies between the start sample and `t1`. -/
theorem sampleJD_between (t0 t1 lo hi : ℚ) (r i : Int) (hr : 1 ≤ r)
    (h0 : lo ≤ (schedule t0 t1 r).1 ∧ (schedule t0 t1 r).1 ≤ hi) (h1 : lo ≤ t1 ∧ t1 ≤ hi)
    (hi0 : 0 ≤ i) (hi1 : i < (schedule t0 t1 r).2.2) :
    lo ≤ sampleJD (schedule t0 t1 r).1 (schedule t0 t1 r).2.1 i ∧
      sampleJD (schedule t0 t1 r).1 (schedule t0 t1 r).2.1 i ≤ hi := by
  by_cases hc : r = 1 ∨ t0 = t1
  · rw [schedule_of_collapse t0 t1 r hc] at h0 hi1 ⊢
    simp only [sampleJD, zero_mul, add_zero]
    exact h0
  · have hne : t0 ≠ t1 := fun h => hc (Or.inr h)
    have hr1 : r ≠ 1 := fun h => hc (Or.inl h)
    rw [schedule_of_ne t0 t1 r hne hr1] at h0 hi1 ⊢
    simp only [sampleJD] at h0 hi1 ⊢
    have hden : (0 : ℚ) < ((r - 1 : Int) : ℚ) := by exact_mod_cast (by omega : (0 : Int) < r - 1)
    have hiq : (0 : ℚ) ≤ (i : ℚ) := by exact_mod_cast hi0
    have hiq1 : (i : ℚ) ≤ ((r - 1 : Int) : ℚ) := by exact_mod_cast (by omega : i ≤ r - 1)
    have hlam0 : 0 ≤ (i : ℚ) / ((r - 1 : Int) : ℚ) := div_nonneg hiq (le_of_lt hden)
    have hlam1 : (i : ℚ) / ((r - 1 : Int) : ℚ) ≤ 1 := (div_le_one hden).mpr hiq1
    have hjd : t0 + (t1 - t0) / ((r - 1 : Int) : ℚ) * (i : ℚ)
        = (1 - (i : ℚ) / ((r - 1 : Int) : ℚ)) * t0 + (i : ℚ) / ((r - 1 : Int) : ℚ) * t1 := by
      field_simp
      ring
    rw [hjd]
    constructor
    · nlinarith [mul_nonneg (sub_nonneg.mpr hlam1) (sub_nonneg.mpr h0.1),
        mul_nonneg hlam0 (sub_nonneg.mpr h1.1)]
    · nlinarith [mul_nonneg (sub_nonneg.mpr hlam1) (sub_nonneg.mpr h0.2),
        mul_nonneg hlam0 (sub_nonneg.mpr h1.2)]

theorem main_rows_of_nonempty (h : Host) (file : FILE) (a : Args)
    (hrows : (main h file a).rows ≠ []) :
    (a.range.isSome → 1 ≤ a.resolution) ∧ ¬ dateCheckFails h file (startSample a) a.jd_end := by
  unfold main at hrows
  split at hrows
  · exact absurd rfl hrows
  · rename_i q hq
    obtain ⟨_, _, hend, hs⟩ := parseQuery_ok a q hq
    have hstart : q.jd_start = startSample a := by
      have := congrArg Prod.fst hs
      exact this
    have hres : a.range.isSome → 1 ≤ a.resolution := by
      intro hsome
      unfold parseQuery at hq
      split at hq
      · simp at hq
      · split at hq
        · simp at hq
        · rename_i hbad
          by_contra hlt
          exact hbad ⟨hsome, by omega⟩
    refine ⟨hres, ?_⟩
    simp only at hrows
    split at hrows
    · exact absurd rfl hrows
    · split at hrows
      · exact absurd rfl hrows
      · rename_i hdate
        rw [hstart, hend] at hdate
        exact hdate

/-- C17: for a query that passes the range check of line 194, which tests the start
sample and `t1`, every time point `jd_start + i * jd_step`, `0 ≤ i < resolution`, of
the loop lies in `[time_start, time_end]`, whichever of `t0` and `t1` is the larger;
so does the Julian date of every row a run prints. -/
theorem samples_within_time_span (h : Host) (file : FILE) (a : Args) (hres : 1 ≤ a.resolution)
    (hpass : ¬ dateCheckFails h file (startSample a) a.jd_end) :
    (∀ i : Int, 0 ≤ i → i < (schedule a.t0 a.jd_end a.resolution).2.2 →
        fileTime h file 0 ≤ sampleJD (schedule a.t0 a.jd_end a.resolution).1
          (schedule a.t0 a.jd_end a.resolution).2.1 i ∧
        sampleJD (schedule a.t0 a.jd_end a.resolution).1
          (schedule a.t0 a.jd_end a.resolution).2.1 i ≤ fileTime h file 1) ∧
      (∀ row ∈ (main h file a).rows,
        fileTime h file 0 ≤ row.jd ∧ row.jd ≤ fileTime h file 1) := by
  unfold dateCheckFails startSample at hpass
  have h0 : fileTime h file 0 ≤ (schedule a.t0 a.jd_end a.resolution).1 ∧
      (schedule a.t0 a.jd_end a.resolution).1 ≤ fileTime h file 1 := by
    constructor
    · by_contra hc
      exact hpass (Or.inl (lt_of_not_le hc))
    · by_contra hc
      exact hpass (Or.inr (Or.inl (lt_of_not_le hc)))
  have h1 : fileTime h file 0 ≤ a.jd_end ∧ a.jd_end ≤ fileTime h file 1 := by
    constructor
    · by_contra hc
      exact hpass (Or.inr (Or.inr (Or.inl (lt_of_not_le hc))))
    · by_contra hc
      exact hpass (Or.inr (Or.inr (Or.inr (lt_of_not_le hc))))
  have hall : ∀ i : Int, 0 ≤ i → i < (schedule a.t0 a.jd_end a.resolution).2.2 →
      fileTime h file 0 ≤ sampleJD (schedule a.t0 a.jd_end a.resolution).1
        (schedule a.t0 a.jd_end a.resolution).2.1 i ∧
      sampleJD (schedule a.t0 a.jd_end a.resolution).1
        (schedule a.t0 a.jd_end a.resolution).2.1 i ≤ fileTime h file 1 :=
    fun i hi0 hi1 => sampleJD_between a.t0 a.jd_end _ _ a.resolution i hres h0 h1 hi0 hi1
  refine ⟨hall, fun row hrow => ?_⟩
  have hmem : row.jd ∈ sampleTimes a.t0 a.jd_end a.resolution :=
    (main_rows h file a).1.subset (List.mem_map_of_mem Row.jd hrow)
  unfold sampleTimes at hmem
  simp only [List.mem_map, List.mem_range] at hmem
  obtain ⟨i, hi, hjd⟩ := hmem
  rw [← hjd]
  exact hall i (by omega) (by omega)

theorem samples_within_time_span_witness :
    (∀ i : Int, 0 ≤ i →
        i < (schedule (Args.mk 0 (4880901 / 2) (some (4880821 / 2, 3))).t0
          (Args.mk 0 (4880901 / 2) (some (4880821 / 2, 3))).jd_end
          (Args.mk 0 (4880901 / 2) (some (4880821 / 2, 3))).resolution).2.2 →
        fileTime host64 exFile 0 ≤
          sampleJD (schedule (Args.mk 0 (4880901 / 2) (some (4880821 / 2, 3))).t0
            (Args.mk 0 (4880901 / 2) (some (4880821 / 2, 3))).jd_end
            (Args.mk 0 (4880901 / 2) (some (4880821 / 2, 3))).resolution).1
          (schedule (Args.mk 0 (4880901 / 2) (some (4880821 / 2, 3))).t0
            (Args.mk 0 (4880901 / 2) (some (4880821 / 2, 3))).jd_end
            (Args.mk 0 (4880901 / 2) (some (4880821 / 2, 3))).resolution).2.1 i ∧
        sampleJD (schedule (Args.mk 0 (4880901 / 2) (some (4880821 / 2, 3))).t0
            (Args.mk 0 (4880901 / 2) (some (4880821 / 2, 3))).jd_end
            (Args.mk 0 (4880901 / 2) (some (4880821 / 2, 3))).resolution).1
          (schedule (Args.mk 0 (4880901 / 2) (some (4880821 / 2, 3))).t0
            (Args.mk 0 (4880901 / 2) (some (4880821 / 2, 3))).jd_end
            (Args.mk 0 (4880901 / 2) (some (4880821 / 2, 3))).resolution).2.1 i
          ≤ fileTime host64 exFile 1) ∧
      (∀ row ∈ (main host64 exFile (Args.mk 0 (4880901 / 2) (some (4880821 / 2, 3)))).rows,
        fileTime host64 exFile 0 ≤ row.jd ∧ row.jd ≤ fileTime host64 exFile 1) :=
  samples_within_time_span host64 exFile (Args.mk 0 (4880901 / 2) (some (4880821 / 2, 3)))
    (by decide) (by decide!)

/-! ## Theorems: the subinterval and the Chebyshev domain -/

/-- The row of lines 275-310 in terms of the named parts. -/
theorem sampleRow_cons (item_id tab0 tab1 tab2 item_ncomp : Int) (record_span : ℚ)
    (rec_start : ℚ) (rest : List ℚ) (jd : ℚ) :
    sampleRow item_id tab0 tab1 tab2 item_ncomp record_span (rec_start :: rest) jd
      = match components
            (fun c => positionAt c tab1 (chebyshevTime record_span tab2 rec_start jd))
            (rec_start :: rest) tab1 item_ncomp.toNat
            (coeffsOffset tab0 tab1 item_ncomp
              (subintervalIndex record_span tab2 rec_start jd) 0) with
        | none => none
        | some xs =>
          if item_id < 13 then
            match components
                (fun c => velocityAt c tab1 (chebyshevTime record_span tab2 rec_start jd)
                  (subintervalDuration record_span tab2))
                (rec_start :: rest) tab1 item_ncomp.toNat
                (coeffsOffset tab0 tab1 item_ncomp
                  (subintervalIndex record_span tab2 rec_start jd) 0) with
            | none => none
            | some dxs => some { jd := jd, position := xs, velocity := dxs }
          else some { jd := jd, position := xs, velocity := [] } := by
  simp only [sampleRow, chebyshevTime, coeffsOffset, subintervalIndex, subintervalDuration,
    zero_mul, add_zero]

/-- The components of lines 291-296 are evaluated on the coefficients at the offsets
`p`, `p + item_ncoeff`, `p + 2 * item_ncoeff`, ... -/
theorem components_pointers {K : Type} [Field K] (f : List K → Option K) (buf : List K)
    (item_ncoeff : Int) :
    ∀ (count : Nat) (p : Int) (xs : List K),
      components f buf item_ncoeff count p = some xs →
      xs.length = count ∧ ∀ j : Nat, j < count →
        ∃ coeffs, pointer buf (p + (j : Int) * item_ncoeff) = some coeffs ∧
          f coeffs = xs[j]? := by
  intro count
  induction count with
  | zero =>
    intro p xs hx
    simp only [components, Option.some.injEq] at hx
    subst hx
    exact ⟨rfl, fun j hj => absurd hj (Nat.not_lt_zero j)⟩
  | succ count ih =>
    intro p xs hx
    rw [components] at hx
    split at hx
    · simp at hx
    · rename_i coeffs hp
      split at hx
      · simp at hx
      · rename_i x hfx
        split at hx
        · simp at hx
        · rename_i rest hrest
          simp only [Option.some.injEq] at hx
          subst hx
          obtain ⟨hlen, hall⟩ := ih (p + item_ncoeff) rest hrest
          refine ⟨by simp [hlen], fun j hj => ?_⟩
          cases j with
          | zero => exact ⟨coeffs, by simpa using hp, by simpa using hfx⟩
          | succ j =>
            obtain ⟨c, hc, hf⟩ := hall j (by omega)
            refine ⟨c, ?_, by simpa using hf⟩
            rw [← hc]
            congr 1
            push_cast
            ring

theorem trunc_of_nonneg (q : ℚ) (hq : 0 ≤ q) : trunc q = ⌊q⌋ := by
  simp [trunc, hq]

/-- C18: for a record starting at `s`, `record_span > 0`, `m ≥ 1` subintervals and a
sample time `jd ≥ s`, with `d = record_span / m`: `subinterval_index` is
`⌊(jd - s) / d⌋`, and the time `t = (jd - (s + subinterval_index * d)) / d * 2 - 1`
lies in the Chebyshev domain, `-1 ≤ t < 1`. -/
theorem subinterval_time_in_domain (s record_span jd : ℚ) (m : Int) (hspan : 0 < record_span)
    (hm : 1 ≤ m) (hjd : s ≤ jd) :
    subintervalIndex record_span m s jd = ⌊(jd - s) / (record_span / (m : ℚ))⌋ ∧
      chebyshevTime record_span m s jd
        = (jd - (s + (subintervalIndex record_span m s jd : ℚ) * (record_span / (m : ℚ))))
            / (record_span / (m : ℚ)) * 2 - 1 ∧
      -1 ≤ chebyshevTime record_span m s jd ∧ chebyshevTime record_span m s jd < 1 := by
  have hmq : (0 : ℚ) < (m : ℚ) := by exact_mod_cast (by omega : (0 : Int) < m)
  have hd : 0 < record_span / (m : ℚ) := div_pos hspan hmq
  have hx : 0 ≤ (jd - s) / (record_span / (m : ℚ)) := div_nonneg (sub_nonneg.mpr hjd) (le_of_lt hd)
  have hidx : subintervalIndex record_span m s jd = ⌊(jd - s) / (record_span / (m : ℚ))⌋ := by
    rw [subintervalIndex, subintervalDuration, trunc_of_nonneg _ hx]
  have ht : chebyshevTime record_span m s jd
      = ((jd - s) / (record_span / (m : ℚ)) - (⌊(jd - s) / (record_span / (m : ℚ))⌋ : ℚ)) * 2
          - 1 := by
    rw [chebyshevTime, hidx, remap, subintervalDuration]
    field_simp
    ring
  have hfl := Int.floor_le ((jd - s) / (record_span / (m : ℚ)))
  have hlt := Int.lt_floor_add_one ((jd - s) / (record_span / (m : ℚ)))
  refine ⟨hidx, ?_, ?_, ?_⟩
  · rw [chebyshevTime, remap, subintervalDuration]
  · rw [ht]
    linarith
  · rw [ht]
    linarith

theorem subinterval_time_in_domain_witness :
    subintervalIndex 32 2 (4880801 / 2) (4880841 / 2) = ⌊((4880841 / 2 : ℚ) - 4880801 / 2)
        / (32 / ((2 : Int) : ℚ))⌋ ∧
      chebyshevTime 32 2 (4880801 / 2) (4880841 / 2)
        = ((4880841 / 2 : ℚ) - (4880801 / 2
            + (subintervalIndex 32 2 (4880801 / 2) (4880841 / 2) : ℚ) * (32 / ((2 : Int) : ℚ))))
            / (32 / ((2 : Int) : ℚ)) * 2 - 1 ∧
      -1 ≤ chebyshevTime 32 2 (4880801 / 2) (4880841 / 2) ∧
      chebyshevTime 32 2 (4880801 / 2) (4880841 / 2) < 1 :=
  subinterval_time_in_domain (4880801 / 2) 32 (4880841 / 2) 2 (by decide) (by decide)
    (by decide!)

/-! ## Theorems: the coefficients of a component lie in the record -/

/-- The offset used for component `j` is `coeffs_start` advanced `j` times by
`item_ncoeff`, as the loops of lines 291 and 302 do. -/
theorem coeffsOffset_component (tab0 tab1 item_ncomp subinterval_index : Int) (j : Nat) :
    coeffsOffset tab0 tab1 item_ncomp subinterval_index j
      = coeffsOffset tab0 tab1 item_ncomp subinterval_index 0 + (j : Int) * tab1 := by
  simp only [coeffsOffset]
  ring

/-- Lines 276-277 in binary64 arithmetic leave the range `[0, m - 1]`: for a record
that starts at 0 and spans 32 days in `m = 3` subintervals, the largest double below
32, `32 - 2 ^ (-48)`, lies in the record, and its index is 3; `32 / 3` is rounded down,
and the quotient by it is rounded to 3. In exact arithmetic the index is 2. -/
theorem subinterval_index_binary64 :
    roundBinary64 (32 - 1 / 2 ^ 48) = 32 - 1 / 2 ^ 48 ∧ (32 - 1 / 2 ^ 48 : ℚ) < 0 + 32 ∧
      roundBinary64 (32 / 3) = binary64 0x4025555555555555 ∧
      roundBinary64 (32 / 3) < 32 / 3 ∧
      roundBinary64 ((32 - 1 / 2 ^ 48) / roundBinary64 (32 / 3)) = 3 ∧
      subintervalIndexBinary64 32 3 0 (32 - 1 / 2 ^ 48) = 3 ∧
      subintervalIndex 32 3 0 (32 - 1 / 2 ^ 48) = 2 :=
  ⟨by decide!, by decide!, by decide!, by decide!, by decide!, by decide!, by decide!⟩

/-! ## Theorems: the record of a Julian date -/

/-- One pass of the loop of line 242 in terms of the target index of line 248. -/
theorem sampleLoop_succ (h : Host) (s : Setup) (count : Nat) (i : Int) (r : Resident)
    (rows : List Row) :
    sampleLoop h s (count + 1) i r rows
      = match locate s.swap s.rec_ncoeff s.rec_size s.max_rec_skip s.max_rec_skip_size
            (targetIndex s.time_start s.record_span
              (sampleJD s.query.jd_start s.query.jd_step i)) r with
        | .hangs => { rows := rows, exit := .undefined, file := r.file }
        | .readError file => { rows := rows, exit := .error .fread, file := file }
        | .resident r =>
          match sampleRow s.query.item_id (tableAt s.table s.query.item_id.toNat 0)
              (tableAt s.table s.query.item_id.toNat 1)
              (tableAt s.table s.query.item_id.toNat 2)
              (DE_NCOMP.getD s.query.item_id.toNat 0) s.record_span
              (doubles h.dbl r.rec_buf s.rec_ncoeff.toNat)
              (sampleJD s.query.jd_start s.query.jd_step i) with
          | none => { rows := rows, exit := .undefined, file := r.file }
          | some row => sampleLoop h s count (i + 1) r (rows ++ [row]) := by
  rw [sampleLoop]
  rfl

/-- Below `time_end` the target index is that of a record of the file, and the span of
that record contains the date. -/
theorem target_index_in_file (time_start record_span jd : ℚ) (N : Int) (_hN : 1 ≤ N)
    (hspan : 0 < record_span) (hlo : time_start ≤ jd)
    (hhi : jd < time_start + (N : ℚ) * record_span) :
    targetIndex time_start record_span jd = ⌊(jd - time_start) / record_span⌋ ∧
      0 ≤ targetIndex time_start record_span jd ∧
      targetIndex time_start record_span jd ≤ N - 1 ∧
      time_start + (targetIndex time_start record_span jd : ℚ) * record_span ≤ jd ∧
      jd ≤ time_start + ((targetIndex time_start record_span jd : ℚ) + 1) * record_span := by
  have hx0 : 0 ≤ (jd - time_start) / record_span :=
    div_nonneg (sub_nonneg.mpr hlo) (le_of_lt hspan)
  have hx1 : (jd - time_start) / record_span < ((N : Int) : ℚ) := by
    rw [div_lt_iff₀ hspan]
    linarith
  have hidx : targetIndex time_start record_span jd = ⌊(jd - time_start) / record_span⌋ := by
    rw [targetIndex, trunc_of_nonneg _ hx0]
  have hfl := Int.floor_le ((jd - time_start) / record_span)
  have hlt := Int.lt_floor_add_one ((jd - time_start) / record_span)
  refine ⟨hidx, ?_, ?_, ?_, ?_⟩
  · rw [hidx]
    exact Int.floor_nonneg.mpr hx0
  · rw [hidx]
    have := Int.floor_lt.mpr hx1
    omega
  · rw [hidx]
    have := (le_div_iff₀ hspan).mp hfl
    linarith
  · rw [hidx]
    have := (div_lt_iff₀ hspan).mp hlt
    linarith

/-- At `time_end` itself, which the range check accepts, the target index is `N`, one
past the last record. -/
theorem target_index_at_time_end (time_start record_span : ℚ) (N : Int) (hN : 1 ≤ N)
    (hspan : 0 < record_span) :
    targetIndex time_start record_span (time_start + (N : ℚ) * record_span) = N := by
  have hx : (time_start + (N : ℚ) * record_span - time_start) / record_span = (N : ℚ) := by
    field_simp
  have hN0 : (0 : ℚ) ≤ (N : ℚ) := by exact_mod_cast (by omega : (0 : Int) ≤ N)
  rw [targetIndex, hx, trunc_of_nonneg _ hN0]
  exact Int.floor_intCast N

/-- C20, the code at a failing input: the example file holds `N = 2` records of 32
days from 2440400.5, so `time_end = 2440464.5`. The query for `jd = time_end` passes
the range check; its target index is 2, the record read for it starts at byte 11520,
the end of the file, and transfers nothing, no error is raised, and the sample is
computed from the block `malloc` returned, as far as that goes. -/
theorem time_end_addresses_no_record :
    Sound exFile ∧ fileTime host64 exFile 0 = 4880801 / 2 ∧ fileTime host64 exFile 2 = 32 ∧
      fileTime host64 exFile 1 = 4880801 / 2 + 2 * 32 ∧
      ¬ dateCheckFails host64 exFile (4880929 / 2) (4880929 / 2) ∧
      targetIndex (fileTime host64 exFile 0) (fileTime host64 exFile 2) (4880929 / 2) = 2 ∧
      (main host64 exFile ⟨0, 4880929 / 2, none⟩).file.log.getLast?
        = some (.read 11520 8 360) ∧
      exFile.size = 11520 ∧
      (main host64 exFile ⟨0, 4880929 / 2, none⟩).file.error = false ∧
      (main host64 exFile ⟨0, 4880929 / 2, none⟩).exit = .undefined :=
  ⟨⟨rfl, rfl⟩, by decide!, by decide!, by decide!, by decide!, by decide!, by decide!, rfl,
    by decide!, by decide!⟩

end Uephem
